import Mathlib

/-!
Verification of the api_diff_checker repository (Go).

This file shallowly embeds the two components the specification covers:
the pure comparison engine (`comparator/diff.go`, given as
`src/unnamed/part_005`) and the execution coordinator / result aggregator
(`core/engine.go` with `config.go`, given concatenated as
`src/logger/log.go`), together with the command runner
(`executor/runner.go`, given as `src/unnamed/part_003`).

Modelling conventions:
* Byte buffers are `String`s (the Go code treats them as opaque bytes or
  UTF-8 text; Go byte-wise string comparison agrees with code-point
  comparison on valid UTF-8).
* `interface{}` values produced by `encoding/json` are the inductive
  `Json` below.  JSON numbers (Go `float64`) are modelled as `Int`;
  none of the verified claims depends on non-integral or
  floating-point-specific numeric behaviour.
* External collaborators (the JSON parser `json.Unmarshal`, the
  go-difflib unified-diff renderer, the wI2L/jsondiff patch generator,
  the shellwords parser, the external command interpreter, the response
  store, the file system and duration formatting) are bundled in the
  record `Collab` of function parameters; theorems quantify over them.
  The Go concurrency (one goroutine per version, channel collection) is
  modelled by an explicit arrival-order parameter; theorems about
  determinism quantify over all arrival orders.
* Time stamps and durations carried only for display are dropped.
-/

/-! ### Byte-wise string ordering (Go `sort.Strings`, `<` on strings)

Go compares strings byte-wise; on valid UTF-8 this is exactly
code-point order, modelled here on `String.data`. -/

def charsCmp : List Char → List Char → Ordering
  | [], [] => .eq
  | [], _ :: _ => .lt
  | _ :: _, [] => .gt
  | a :: as, b :: bs =>
    if a.val.toNat < b.val.toNat then .lt
    else if b.val.toNat < a.val.toNat then .gt
    else charsCmp as bs

def strCmp (a b : String) : Ordering := charsCmp a.data b.data

/-- Boolean `a ≤ b` in Go string order. -/
def strLe (a b : String) : Bool :=
  match strCmp a b with
  | .gt => false
  | _ => true

/-- Boolean `a < b` in Go string order. -/
def strLtB (a b : String) : Bool :=
  match strCmp a b with
  | .lt => true
  | _ => false

theorem charsCmp_eq_iff : ∀ {a b : List Char}, charsCmp a b = .eq ↔ a = b := by
  intro a
  induction a with
  | nil => intro b; cases b <;> simp [charsCmp]
  | cons x xs ih =>
    intro b
    cases b with
    | nil => simp [charsCmp]
    | cons y ys =>
      simp only [charsCmp]
      by_cases h1 : x.val.toNat < y.val.toNat
      · simp only [if_pos h1]
        constructor
        · intro h; exact absurd h (by simp)
        · intro h
          injection h with hx _
          subst hx; omega
      · by_cases h2 : y.val.toNat < x.val.toNat
        · simp only [if_neg h1, if_pos h2]
          constructor
          · intro h; exact absurd h (by simp)
          · intro h
            injection h with hx _
            subst hx; omega
        · have hxy : x = y := Char.ext (UInt32.ext (by omega))
          subst hxy
          simp only [if_neg h1, if_neg h2, ih]
          constructor
          · intro h; rw [h]
          · intro h; injection h

theorem charsCmp_swap : ∀ (a b : List Char), charsCmp b a = (charsCmp a b).swap := by
  intro a
  induction a with
  | nil => intro b; cases b <;> simp [charsCmp, Ordering.swap]
  | cons x xs ih =>
    intro b
    cases b with
    | nil => simp [charsCmp, Ordering.swap]
    | cons y ys =>
      simp only [charsCmp]
      by_cases h1 : x.val.toNat < y.val.toNat
      · have h2 : ¬ y.val.toNat < x.val.toNat := by omega
        simp [h1, h2, Ordering.swap]
      · by_cases h2 : y.val.toNat < x.val.toNat
        · simp [h1, h2, Ordering.swap]
        · simp [h1, h2, ih ys, Ordering.swap]

theorem charsCmp_lt_trans :
    ∀ {a b c : List Char}, charsCmp a b = .lt → charsCmp b c = .lt → charsCmp a c = .lt := by
  intro a
  induction a with
  | nil =>
    intro b c hab hbc
    cases b with
    | nil => cases hab
    | cons y ys =>
      cases c with
      | nil => cases hbc
      | cons z zs => simp [charsCmp]
  | cons x xs ih =>
    intro b c hab hbc
    cases b with
    | nil => cases hab
    | cons y ys =>
      cases c with
      | nil => cases hbc
      | cons z zs =>
        simp only [charsCmp] at hab hbc ⊢
        by_cases hxy : x.val.toNat < y.val.toNat
        · by_cases hyz : y.val.toNat < z.val.toNat
          · have : x.val.toNat < z.val.toNat := by omega
            simp [this]
          · by_cases hzy : z.val.toNat < y.val.toNat
            · simp [hyz, hzy] at hbc
            · have hy : y.val.toNat = z.val.toNat := by omega
              have : x.val.toNat < z.val.toNat := by omega
              simp [this]
        · by_cases hyx : y.val.toNat < x.val.toNat
          · simp [hxy, hyx] at hab
          · have hx : x.val.toNat = y.val.toNat := by omega
            by_cases hyz : y.val.toNat < z.val.toNat
            · have : x.val.toNat < z.val.toNat := by omega
              simp [this]
            · by_cases hzy : z.val.toNat < y.val.toNat
              · simp [hyz, hzy] at hbc
              · have hy : y.val.toNat = z.val.toNat := by omega
                have h1 : ¬ x.val.toNat < z.val.toNat := by omega
                have h2 : ¬ z.val.toNat < x.val.toNat := by omega
                simp only [hxy, hyx, if_neg, ite_false] at hab
                simp only [hyz, hzy, if_neg, ite_false] at hbc
                simp only [h1, h2, if_neg, ite_false]
                exact ih hab hbc

theorem string_data_eq_imp {a b : String} (h : a.data = b.data) : a = b :=
  congrArg String.mk h

theorem strCmp_eq_iff {a b : String} : strCmp a b = .eq ↔ a = b := by
  unfold strCmp
  rw [charsCmp_eq_iff]
  exact ⟨string_data_eq_imp, fun h => by rw [h]⟩

theorem strCmp_swap (a b : String) : strCmp b a = (strCmp a b).swap := by
  unfold strCmp; exact charsCmp_swap _ _

theorem strLe_total (a b : String) : strLe a b = true ∨ strLe b a = true := by
  have hsw := strCmp_swap a b
  cases h : strCmp a b <;> rw [h] at hsw <;> simp [strLe, h, hsw, Ordering.swap]

theorem strLe_antisymm {a b : String} (h1 : strLe a b = true) (h2 : strLe b a = true) :
    a = b := by
  have hsw := strCmp_swap a b
  cases h : strCmp a b with
  | eq => exact strCmp_eq_iff.mp h
  | lt => rw [h] at hsw; simp [strLe, hsw, Ordering.swap] at h2
  | gt => simp [strLe, h] at h1

theorem strLe_trans {a b c : String} (h1 : strLe a b = true) (h2 : strLe b c = true) :
    strLe a c = true := by
  cases hab : strCmp a b with
  | gt => simp [strLe, hab] at h1
  | eq =>
    have : a = b := strCmp_eq_iff.mp hab
    subst this; exact h2
  | lt =>
    cases hbc : strCmp b c with
    | gt => simp [strLe, hbc] at h2
    | eq =>
      have : b = c := strCmp_eq_iff.mp hbc
      subst this; simp [strLe, hab]
    | lt =>
      have : strCmp a c = .lt := charsCmp_lt_trans hab hbc
      simp [strLe, this]

theorem strLtB_of_le_of_ne {a b : String} (h1 : strLe a b = true) (h2 : a ≠ b) :
    strLtB a b = true := by
  cases h : strCmp a b with
  | lt => simp [strLtB, h]
  | eq => exact absurd (strCmp_eq_iff.mp h) h2
  | gt => simp [strLe, h] at h1

theorem strLtB_asymm {a b : String} (h1 : strLtB a b = true) (h2 : strLtB b a = true) :
    False := by
  have hsw := strCmp_swap a b
  cases h : strCmp a b <;> rw [h] at hsw <;> simp [strLtB, h, hsw, Ordering.swap] at h1 h2

/-! ### A sort modelling Go `sort.Strings` / `sort.Slice`

Insertion sort by a string key.  Go's `sort.Strings` and `sort.Slice`
produce an ascending reordering of the input; whenever the keys are
distinct (version labels are map keys, hence distinct) the sorted
permutation is unique, so any correct sort is extensionally the one Go
computes.  For plain strings with duplicates the sorted list is also
unique because equal keys are identical elements. -/

def insertOn {α : Type} (key : α → String) (a : α) : List α → List α
  | [] => [a]
  | b :: bs => if strLe (key a) (key b) then a :: b :: bs else b :: insertOn key a bs

def sortOn {α : Type} (key : α → String) : List α → List α
  | [] => []
  | a :: as => insertOn key a (sortOn key as)

def sortStrings : List String → List String := sortOn id

theorem insertOn_perm {α : Type} (key : α → String) (a : α) (l : List α) :
    (insertOn key a l).Perm (a :: l) := by
  induction l with
  | nil => simp [insertOn]
  | cons b bs ih =>
    simp only [insertOn]
    by_cases h : strLe (key a) (key b) = true
    · rw [if_pos h]
    · rw [if_neg h]
      exact (ih.cons b).trans (List.Perm.swap a b bs)

theorem sortOn_perm {α : Type} (key : α → String) (l : List α) :
    (sortOn key l).Perm l := by
  induction l with
  | nil => simp [sortOn]
  | cons a as ih =>
    simp only [sortOn]
    exact (insertOn_perm key a (sortOn key as)).trans (ih.cons a)

theorem insertOn_sorted {α : Type} (key : α → String) (a : α) (l : List α)
    (h : l.Pairwise (fun x y => strLe (key x) (key y) = true)) :
    (insertOn key a l).Pairwise (fun x y => strLe (key x) (key y) = true) := by
  induction l with
  | nil => simp [insertOn]
  | cons b bs ih =>
    simp only [insertOn]
    rcases List.pairwise_cons.mp h with ⟨hb, hbs⟩
    by_cases hab : strLe (key a) (key b) = true
    · rw [if_pos hab]
      refine List.pairwise_cons.mpr ⟨?_, h⟩
      intro y hy
      rcases hy with _ | hy
      · exact hab
      · exact strLe_trans hab (hb y (by assumption))
    · rw [if_neg hab]
      refine List.pairwise_cons.mpr ⟨?_, ih hbs⟩
      intro y hy
      have := (insertOn_perm key a bs).mem_iff.mp hy
      rcases List.mem_cons.mp this with h1 | h2
      · rw [h1]
        rcases strLe_total (key a) (key b) with h | h
        · exact absurd h hab
        · exact h
      · exact hb y h2

theorem sortOn_sorted {α : Type} (key : α → String) (l : List α) :
    (sortOn key l).Pairwise (fun x y => strLe (key x) (key y) = true) := by
  induction l with
  | nil => simp [sortOn]
  | cons a as ih => exact insertOn_sorted key a _ ih

/-- Any two ascending reorderings of the same multiset of strings agree;
hence `sortStrings` applied to permuted inputs yields the same list. -/
theorem sortStrings_eq_of_perm {l₁ l₂ : List String} (h : l₁.Perm l₂) :
    sortStrings l₁ = sortStrings l₂ := by
  haveI : IsAntisymm String (fun a b => strLe a b = true) :=
    ⟨fun _ _ h1 h2 => strLe_antisymm h1 h2⟩
  apply List.eq_of_perm_of_sorted (r := fun a b : String => strLe a b = true)
  · exact (sortOn_perm id l₁).trans (h.trans (sortOn_perm id l₂).symm)
  · simpa [sortStrings] using sortOn_sorted id l₁
  · simpa [sortStrings] using sortOn_sorted id l₂

/-- With pairwise-distinct keys, a multiset has a unique ascending
reordering; so `sortOn` applied to permuted inputs yields the same list. -/
theorem sortOn_eq_of_perm {α : Type} (key : α → String) {l₁ l₂ : List α}
    (h : l₁.Perm l₂) (hnd : (l₁.map key).Nodup) :
    sortOn key l₁ = sortOn key l₂ := by
  haveI : IsAntisymm α (fun a b => strLtB (key a) (key b) = true) :=
    ⟨fun _ _ h1 h2 => absurd (strLtB_asymm h1 h2) (by simp)⟩
  apply List.eq_of_perm_of_sorted (r := fun a b => strLtB (key a) (key b) = true)
  · exact (sortOn_perm key l₁).trans (h.trans (sortOn_perm key l₂).symm)
  · have hs := sortOn_sorted key l₁
    have hd : (sortOn key l₁).Pairwise (fun x y => key x ≠ key y) := by
      have : ((sortOn key l₁).map key).Nodup :=
        (List.Perm.nodup_iff ((sortOn_perm key l₁).map key)).mpr hnd
      exact List.pairwise_map.mp this
    exact (hs.and hd).imp (fun h => strLtB_of_le_of_ne h.1 h.2)
  · have hs := sortOn_sorted key l₂
    have hnd₂ : (l₂.map key).Nodup := (List.Perm.nodup_iff (h.map key)).mp hnd
    have hd : (sortOn key l₂).Pairwise (fun x y => key x ≠ key y) := by
      have : ((sortOn key l₂).map key).Nodup :=
        (List.Perm.nodup_iff ((sortOn_perm key l₂).map key)).mpr hnd₂
      exact List.pairwise_map.mp this
    exact (hs.and hd).imp (fun h => strLtB_of_le_of_ne h.1 h.2)

/-! ### The JSON value model

`interface{}` values produced by `json.Unmarshal`: JSON objects are Go
maps; here association lists (Go map keys are unique, so theorems that
iterate objects assume `Nodup` keys where it matters).  Numbers
(`float64` in Go) are modelled as `Int`. -/

inductive Json where
  | null
  | bool (b : Bool)
  | num (n : Int)
  | str (s : String)
  | arr (elems : List Json)
  | obj (fields : List (String × Json))

/-- Minimal JSON string quoting, standing in for `encoding/json`'s
string escaping (Go additionally escapes HTML characters; no verified
claim observes escaped output). -/
def escapeChar (c : Char) : String :=
  if c = '"' then "\\\""
  else if c = '\\' then "\\\\"
  else if c = '\n' then "\\n"
  else if c = '\t' then "\\t"
  else if c = '\r' then "\\r"
  else String.singleton c

def quoteJSONString (s : String) : String :=
  "\"" ++ String.join (s.data.map escapeChar) ++ "\""

/-! Compact canonical serialization, modelling `json.Marshal`: object
keys are emitted in ascending (byte-wise) order, exactly as Go's
`encoding/json` does for maps. -/
mutual

def marshal : Json → String
  | .null => "null"
  | .bool b => if b then "true" else "false"
  | .num n => toString n
  | .str s => quoteJSONString s
  | .arr xs => "[" ++ String.intercalate "," (marshalList xs) ++ "]"
  | .obj fs =>
    "\x7b" ++ String.intercalate ","
      ((sortOn Prod.fst (marshalFields fs)).map
        (fun p => quoteJSONString p.1 ++ ":" ++ p.2)) ++ "\x7d"

def marshalList : List Json → List String
  | [] => []
  | x :: xs => marshal x :: marshalList xs

def marshalFields : List (String × Json) → List (String × String)
  | [] => []
  | (k, v) :: fs => (k, marshal v) :: marshalFields fs

end

/-- `deepEqual` from comparator/diff.go: marshal both values and compare
the canonical serializations as strings. -/
def deepEqual (v1 v2 : Json) : Bool := marshal v1 == marshal v2

/-! Indented serialization, modelling `json.MarshalIndent(v, "", "  ")`
(feeds only the unified-diff text in keys-only mode). -/
mutual

def mIndent : String → Json → String
  | _, .null => "null"
  | _, .bool b => if b then "true" else "false"
  | _, .num n => toString n
  | _, .str s => quoteJSONString s
  | _, .arr [] => "[]"
  | ind, .arr (x :: xs) =>
    "[\n" ++ String.intercalate ",\n" (mIndentList (ind ++ "  ") (x :: xs))
      ++ "\n" ++ ind ++ "]"
  | _, .obj [] => "\x7b\x7d"
  | ind, .obj (f :: fs) =>
    "\x7b\n" ++ String.intercalate ",\n"
      ((sortOn Prod.fst (mIndentFields (ind ++ "  ") (f :: fs))).map
        (fun p => ind ++ "  " ++ quoteJSONString p.1 ++ ": " ++ p.2))
      ++ "\n" ++ ind ++ "\x7d"

def mIndentList : String → List Json → List String
  | _, [] => []
  | ind, x :: xs => (ind ++ mIndent ind x) :: mIndentList ind xs

def mIndentFields : String → List (String × Json) → List (String × String)
  | _, [] => []
  | ind, (k, v) :: fs => (k, mIndent ind v) :: mIndentFields ind fs

end

def marshalIndent (v : Json) : String := mIndent "" v

/-! Model of `fmt.Sprintf` with the `v` verb on a JSON-decoded value
(`fmt` prints map keys in sorted order). -/
mutual

def goFormat : Json → String
  | .null => "<nil>"
  | .bool b => if b then "true" else "false"
  | .num n => toString n
  | .str s => s
  | .arr xs => "[" ++ String.intercalate " " (goFormatList xs) ++ "]"
  | .obj fs =>
    "map[" ++ String.intercalate " "
      ((sortOn Prod.fst (goFormatFields fs)).map (fun p => p.1 ++ ":" ++ p.2)) ++ "]"

def goFormatList : List Json → List String
  | [] => []
  | x :: xs => goFormat x :: goFormatList xs

def goFormatFields : List (String × Json) → List (String × String)
  | [] => []
  | (k, v) :: fs => (k, goFormat v) :: goFormatFields fs

end

/-! ### Comparison engine (comparator/diff.go, src/unnamed/part_005) -/

/-! `extractKeys`: replace every scalar with a type marker, collapse
arrays to their first element's skeleton. -/
mutual

def extractKeys : Json → Json
  | .obj fs => .obj (extractKeysFields fs)
  | .arr [] => .arr []
  | .arr (x :: _) => .arr [extractKeys x]
  | .str _ => .str "<string>"
  | .num _ => .str "<number>"
  | .bool _ => .str "<boolean>"
  | .null => .str "<null>"

def extractKeysFields : List (String × Json) → List (String × Json)
  | [] => []
  | (k, v) :: fs => (k, extractKeys v) :: extractKeysFields fs

end

/-! `collectAllKeys` builds a `map[string]bool` of reachable key paths.
`collectRaw` lists the inserted paths in traversal order; the Go map is
the set of those paths, canonically represented by `List.dedup`. -/
mutual

def collectRaw : Json → String → List String
  | .obj fs, pre => collectRawFields fs pre
  | .arr (x :: _), pre => collectRaw x (pre ++ "[]")
  | _, _ => []

def collectRawFields : List (String × Json) → String → List String
  | [], _ => []
  | (k, child) :: fs, pre =>
    let fullKey := if pre = "" then k else pre ++ "." ++ k
    (fullKey :: collectRaw child fullKey) ++ collectRawFields fs pre

end

def collectAllKeys (v : Json) (pre : String) : List String :=
  (collectRaw v pre).dedup

/-- Sequential string join; models both `strings.Join` (used by the
summarizers) and the identically-behaved `joinStrings` helper of
core/engine.go. -/
def joinStrings : List String → String → String
  | [], _ => ""
  | s :: rest, sep => rest.foldl (fun acc x => acc ++ sep ++ x) s

/-- `summarizeKeyDifferences`: left-only paths are reported removed,
right-only paths added; messages are sorted and comma-joined (the Go
code iterates two maps and sorts the combined message list, so map
iteration order is immaterial). -/
def summarizeKeyDifferences (v1 v2 : Json) : String :=
  let keys1 := collectAllKeys v1 ""
  let keys2 := collectAllKeys v2 ""
  let removed := (keys1.filter fun k => !(keys2.contains k)).map
    fun k => "Key '" ++ k ++ "' removed"
  let added := (keys2.filter fun k => !(keys1.contains k)).map
    fun k => "Key '" ++ k ++ "' added"
  let changes := sortStrings (removed ++ added)
  if changes.isEmpty then "No structural changes (keys match)"
  else joinStrings changes ", "

/-- Per-index changed count of `summarizeArrayDifferences`' loop
(`for i := 0; i < len1; i++ if !deepEqual(arr1[i], arr2[i])`), written
as paired recursion; the two agree whenever the lengths are equal. -/
def countChanged : List Json → List Json → Nat
  | x :: xs, y :: ys => (if deepEqual x y then 0 else 1) + countChanged xs ys
  | _, _ => 0

def summarizeArrayDifferences (arr1 arr2 : List Json) : String :=
  if arr1.length ≠ arr2.length then
    "Array length changed: " ++ toString arr1.length ++ " → "
      ++ toString arr2.length ++ " items"
  else
    let changedCount := countChanged arr1 arr2
    if changedCount = 0 then "No top-level changes"
    else "Array: " ++ toString changedCount ++ " of "
      ++ toString arr1.length ++ " items changed"

/-- The both-objects branch of `summarizeDifferences` (factored out of
the Go function body for direct reference in theorems): iterate the
left map reporting removed/changed fields, then the right map for added
fields, sort the messages and join. -/
def summarizeObjectDifferences (m1 m2 : List (String × Json)) : String :=
  let part1 := m1.filterMap fun p =>
    match List.lookup p.1 m2 with
    | none => some ("Field '" ++ p.1 ++ "' removed")
    | some v2 =>
      if deepEqual p.2 v2 then none else some ("Field '" ++ p.1 ++ "' changed")
  let part2 := m2.filterMap fun p =>
    if (List.lookup p.1 m1).isSome then none
    else some ("Field '" ++ p.1 ++ "' added")
  let changes := sortStrings (part1 ++ part2)
  if changes.isEmpty then "No top-level changes"
  else joinStrings changes ", "

def summarizeDifferences (v1 v2 : Json) : String :=
  match v1, v2 with
  | .arr a1, .arr a2 => summarizeArrayDifferences a1 a2
  | .obj m1, .obj m2 => summarizeObjectDifferences m1 m2
  | w1, w2 =>
    if goFormat w1 = goFormat w2 then "No top-level changes"
    else "Top-level value changed"

/-! ### External collaborators

The comparison engine and coordinator call external libraries and
collaborators whose internals are outside this repository: the JSON
parser (`encoding/json.Unmarshal`, used only through success/failure and
the decoded value), the go-difflib unified-diff renderer
(`difflib.GetUnifiedDiffString`, which cannot fail when writing to a
buffer), the wI2L/jsondiff patch generator, the shellwords parser, the
external command interpreter together with its per-command timeout
context, the response store `Store.SaveResponse`, `os.ReadFile`, and
`time.Duration` formatting.  They are modelled as the fields of `Collab`;
theorems quantify over all instantiations. -/

structure CmdRun where
  stdout : String
  stderr : String
  runErr : Option String
  deadlineExceeded : Bool

structure Collab where
  parseJSON : String → Option Json
  unifiedDiff : List String → List String → String → String → Nat → String
  jsonPatch : Json → Json → String
  shellParse : String → Except String (List String)
  runCmd : List String → Int → CmdRun
  save : String → String → Option String → Option String → Except String String
  readFile : String → Except String String
  showDur : Int → String

/-! ### Comparison engine entry points (comparator/diff.go) -/

structure DiffResult where
  textDiff : String
  jsonPatch : String
  summary : String
  isJSON : Bool
deriving DecidableEq

structure CompareOptions where
  keysOnly : Bool
deriving DecidableEq

def isValidJSON (E : Collab) (data : String) : Bool := (E.parseJSON data).isSome

/-- `difflib.SplitLines`: split keeping the separators and give the last
line a trailing newline. -/
def splitLines (s : String) : List String :=
  (s.splitOn "\n").map (fun l => l ++ "\n")

/-- `compareAsText`: unified diff over the raw text with 3 context
lines; the summary names the invalid side(s); identical buffers get the
"(content is identical)" suffix and an empty diff body.  (The Go
function's only error return is from writing the diff to an in-memory
buffer, which cannot fail, so it is modelled as total.) -/
def compareAsText (E : Collab) (original modified name1 name2 : String)
    (isJSON1 isJSON2 : Bool) : DiffResult :=
  let textDiff := E.unifiedDiff (splitLines original) (splitLines modified) name1 name2 3
  let summary :=
    if !isJSON1 && !isJSON2 then "Both responses are non-JSON content"
    else if !isJSON1 then "Response from " ++ name1 ++ " is not valid JSON"
    else "Response from " ++ name2 ++ " is not valid JSON"
  if original = modified then
    { textDiff := "", jsonPatch := "[]",
      summary := summary ++ " (content is identical)", isJSON := false }
  else
    { textDiff := textDiff, jsonPatch := "[]", summary := summary, isJSON := false }

/-- `compareAsJSON`: in keys-only mode both values are skeletonized and
re-serialized (indented) for the text diff; the summary dispatches on
the mode.  (The Go error returns — re-unmarshal of already-validated
input and jsondiff on values produced by `encoding/json` — are dead
paths, so the function is modelled as total.) -/
def compareAsJSON (E : Collab) (original modified name1 name2 : String)
    (v1 v2 : Json) (opts : CompareOptions) : DiffResult :=
  let w1 := if opts.keysOnly then extractKeys v1 else v1
  let w2 := if opts.keysOnly then extractKeys v2 else v2
  let orig2 := if opts.keysOnly then marshalIndent w1 else original
  let mod2 := if opts.keysOnly then marshalIndent w2 else modified
  let textDiff := E.unifiedDiff (splitLines orig2) (splitLines mod2) name1 name2 3
  let patchBytes := E.jsonPatch w1 w2
  let summary :=
    if opts.keysOnly then summarizeKeyDifferences w1 w2
    else summarizeDifferences w1 w2
  { textDiff := textDiff, jsonPatch := patchBytes, summary := summary, isJSON := true }

def CompareWithOptions (E : Collab) (original modified name1 name2 : String)
    (opts : CompareOptions) : DiffResult :=
  match E.parseJSON original, E.parseJSON modified with
  | some v1, some v2 => compareAsJSON E original modified name1 name2 v1 v2 opts
  | o1, o2 => compareAsText E original modified name1 name2 o1.isSome o2.isSome

def Compare (E : Collab) (original modified name1 name2 : String) : DiffResult :=
  CompareWithOptions E original modified name1 name2 { keysOnly := false }

/-! ### Command runner (executor/runner.go, src/unnamed/part_003) -/

def DefaultTimeout : Int := 30

structure ExecutionResult where
  command : String
  version : String
  response : String
  error : String
  stderr : String
  timedOut : Bool
deriving DecidableEq

/-- Sequential left-to-right non-overlapping replacement on character
lists, fuelled by the input length (one character is consumed per step,
so `s.length` fuel is exact); models `strings.ReplaceAll` for a
non-empty pattern. -/
def replaceAllAux (pat rep : List Char) : List Char → Nat → List Char
  | s, 0 => s
  | s, fuel + 1 =>
    if pat ≠ [] ∧ pat.isPrefixOf s then
      rep ++ replaceAllAux pat rep (s.drop pat.length) fuel
    else
      match s with
      | [] => []
      | c :: rest => c :: replaceAllAux pat rep rest fuel

def goReplaceAll (s pat rep : String) : String :=
  String.mk (replaceAllAux pat.data rep.data s.data s.data.length)

/-- `unicode.IsSpace` restricted to ASCII (the characters relevant to
command text); models `strings.TrimSpace`'s cutset. -/
def goSpace (c : Char) : Bool :=
  c = ' ' || c = '\t' || c = '\n' || c = '\x0b' || c = '\x0c' || c = '\r'

def goTrim (s : String) : String :=
  String.mk (((s.data.dropWhile goSpace).reverse.dropWhile goSpace).reverse)

/-- RE2 whitespace class matched by the Go regexp `\s`. -/
def goWhitespace (c : Char) : Bool :=
  c = ' ' || c = '\t' || c = '\n' || c = '\x0c' || c = '\r'

/-- Collapse every whitespace run to a single space (the Go
`regexp.MustCompile` whitespace-run replacement). -/
def collapseWhitespace : Bool → List Char → List Char
  | _, [] => []
  | inRun, c :: rest =>
    if goWhitespace c then
      if inRun then collapseWhitespace true rest
      else ' ' :: collapseWhitespace true rest
    else c :: collapseWhitespace false rest

def normalizeCommand (cmd : String) : String :=
  let cmd := goReplaceAll cmd "\\\n" " "
  let cmd := goReplaceAll cmd "\\\r\n" " "
  let cmd := goReplaceAll cmd "\\   " " "
  let cmd := goReplaceAll cmd "\\  " " "
  let cmd := goReplaceAll cmd "\\ " " "
  let cmd := goReplaceAll cmd "\t" " "
  let cmd := goReplaceAll cmd "\r" ""
  let cmd := String.mk (collapseWhitespace false cmd.data)
  goTrim cmd

def validateCommand (args : List String) : String :=
  match args with
  | [] => "empty command"
  | a :: _ =>
    let cmdName := a.toLower
    if cmdName ≠ "curl" && cmdName ≠ "curl.exe" then
      "command '" ++ a ++ "' is not curl - execution may behave unexpectedly"
    else ""

/-- Placeholder substitution of `Execute` (steps 1 and 2): normalize,
then replace every occurrence of the literal `{{BASE_URL}}`. -/
def finalCommand (commandTmpl baseURL : String) : String :=
  goReplaceAll (normalizeCommand commandTmpl) "\x7b\x7bBASE_URL\x7d\x7d" baseURL

/-- `executor.Execute`: parse the substituted command, run it under the
per-command timeout context, and classify the outcome.  The timed-out
flag is set exactly when the command context reports a deadline overrun
(`ctx.Err() == context.DeadlineExceeded`, the `deadlineExceeded` field
of the modelled run); the returned error is then the context error,
whose text is "context deadline exceeded".  `validateCommand` only
prints a warning in Go and does not affect the result.  Timestamp and
duration fields (wall-clock display data) are omitted. -/
def Execute (E : Collab) (commandTmpl version baseURL : String) (timeout0 : Int) :
    ExecutionResult × Option String :=
  let timeout := if timeout0 ≤ 0 then DefaultTimeout else timeout0
  let finalCmdStr := finalCommand commandTmpl baseURL
  match E.shellParse finalCmdStr with
  | .error e =>
    ({ command := finalCmdStr, version := version, response := "",
       error := "failed to parse command: " ++ e, stderr := "", timedOut := false },
     some ("failed to parse command: " ++ e))
  | .ok [] =>
    ({ command := finalCmdStr, version := version, response := "",
       error := "empty command after parsing", stderr := "", timedOut := false },
     some "empty command")
  | .ok (cmdName :: cmdArgs) =>
    let run := E.runCmd (cmdName :: cmdArgs) timeout
    let stderrTrim := goTrim run.stderr
    if run.deadlineExceeded then
      ({ command := finalCmdStr, version := version, response := "",
         error := "command timed out after " ++ E.showDur timeout,
         stderr := stderrTrim, timedOut := true },
       some "context deadline exceeded")
    else
      match run.runErr with
      | some e =>
        let msg := "execution failed: " ++ e
        let msg := if stderrTrim ≠ "" then msg ++ " | stderr: " ++ stderrTrim else msg
        ({ command := finalCmdStr, version := version, response := "",
           error := msg, stderr := stderrTrim, timedOut := false },
         some e)
      | none =>
        ({ command := finalCmdStr, version := version, response := run.stdout,
           error := "", stderr := stderrTrim, timedOut := false },
         none)

/-! ### Configuration (config/config.go, inside src/logger/log.go) -/

structure TestCase where
  name : String
  commands : List (String × String)
deriving DecidableEq

structure Config where
  versions : List (String × String)
  commands : List String
  testCases : List TestCase
  keysOnly : Bool
  timeout : Int
deriving DecidableEq

/-- `Config.GetTimeout` (seconds; Go multiplies by `time.Second`). -/
def GetTimeout (c : Config) : Int :=
  if c.timeout ≤ 0 then DefaultTimeout else c.timeout

/-- `Config.GetTestCases`: a non-empty matrix is returned unchanged;
legacy flat commands become one test case per command, named
"Command i" (1-based), mapping every configured version to that
command. -/
def GetTestCases (c : Config) : List TestCase :=
  if c.testCases.length > 0 then c.testCases
  else c.commands.mapIdx fun i cmd =>
    { name := "Command " ++ toString (i + 1),
      commands := c.versions.map fun p => (p.1, cmd) }

/-! ### Execution coordinator (core/engine.go `RunWithContext`, inside
src/logger/log.go)

The Go coordinator processes test cases sequentially; per test case it
launches one goroutine per sorted version that has a command, collects
`execResult`s over a channel, sorts the outcome list by version, and
diffs adjacent sorted version pairs.  Modelling choices:

* the context is `Ctx`: `doneAt i` tells whether the cancellation
  check at the head of iteration `i` fires (Go `select` on
  `ctx.Done()`), and `errMsg` is `ctx.Err().Error()`; the 10-minute
  default deadline that Go installs when the caller supplied none is
  part of this abstract context;
* channel arrival order is the explicit `arrive` function: for scenario
  index `i` with launched versions `L`, the channel yields the task
  results in the order `arrive i L` (theorems assume it is a
  permutation of `L`);
* each goroutine's work is the pure `taskRun` below; the fault boundary
  (`recover()`) is unreachable in the pure model and the
  `SaveResponse(cmd, v, nil, err)` call on the failure path has no
  observable effect on the report, so both are dropped. -/

structure ExecInfo where
  version : String
  file : String
  error : String
  timedOut : Bool
deriving DecidableEq

structure VersionDiff where
  versionA : String
  versionB : String
  diffResult : Option DiffResult
  oldContent : String
  newContent : String
  error : String
deriving DecidableEq

structure CommandResult where
  testCaseName : String
  commands : List (String × String)
  diffs : List VersionDiff
  execInfo : List ExecInfo
deriving DecidableEq

structure RunResult where
  commandResults : List CommandResult
  errors : List String
deriving DecidableEq

structure Ctx where
  doneAt : Nat → Bool
  errMsg : String

structure execResult where
  version : String
  filePath : String
  execInfo : ExecInfo
deriving DecidableEq

/-- Body of the per-(scenario, version) goroutine in `RunWithContext`:
run `executor.Execute`, record the timed-out flag, on success save the
response and remember the file path, on failure record the error text
(replaced by "timeout after <budget>" when the failure was a timeout). -/
def taskRun (E : Collab) (timeout : Int) (cfg : Config) (tc : TestCase)
    (v : String) : execResult :=
  let baseURL := (List.lookup v cfg.versions).getD ""
  let cmdRaw := (List.lookup v tc.commands).getD ""
  let res := Execute E cmdRaw v baseURL timeout
  match res.2 with
  | some e =>
    let eMsg := if res.1.timedOut then "timeout after " ++ E.showDur timeout else e
    { version := v, filePath := "",
      execInfo := { version := v, file := "", error := eMsg, timedOut := res.1.timedOut } }
  | none =>
    match E.save cmdRaw v (some res.1.response) none with
    | .error saveErr =>
      { version := v, filePath := "",
        execInfo := { version := v, file := "",
                      error := "Save failed: " ++ saveErr, timedOut := res.1.timedOut } }
    | .ok path =>
      { version := v, filePath := path,
        execInfo := { version := v, file := path, error := "", timedOut := res.1.timedOut } }

/-- Versions launched for a test case: every sorted version present in
the test case's command map (absent versions are skipped with a
warning). -/
def launchedVersions (versions : List String) (tc : TestCase) : List String :=
  versions.filter fun v => (List.lookup v tc.commands).isSome

def scenarioOuts (E : Collab) (timeout : Int) (cfg : Config) (tc : TestCase)
    (order : List String) : List execResult :=
  order.map (taskRun E timeout cfg tc)

/-- The `results` map (version to saved file path) collected from the
channel: entries with a non-empty `filePath`. -/
def scenarioResults (outs : List execResult) : List (String × String) :=
  outs.filterMap fun r => if r.filePath = "" then none else some (r.version, r.filePath)

/-- `Engine.compareFiles`: read both stored responses, reject empty
content, then run the comparator. -/
def compareFiles (E : Collab) (file1 file2 v1 v2 : String) (keysOnly : Bool) :
    Except String (DiffResult × String × String) :=
  match E.readFile file1 with
  | .error e => .error ("read file1 error: " ++ e)
  | .ok b1 =>
    match E.readFile file2 with
    | .error e => .error ("read file2 error: " ++ e)
    | .ok b2 =>
      if b1.length = 0 then .error ("empty response content for " ++ v1)
      else if b2.length = 0 then .error ("empty response content for " ++ v2)
      else .ok (CompareWithOptions E b1 b2 file1 file2 { keysOnly := keysOnly }, b1, b2)

/-- Adjacent pairs `(versions[i], versions[i+1])` of the sorted version
list, the loop bounds of the diff loop in `RunWithContext`. -/
def adjPairs {α : Type} : List α → List (α × α)
  | a :: b :: rest => (a, b) :: adjPairs (b :: rest)
  | _ => []

/-- One iteration of the diff loop: diff the pair when both versions
have a stored response, otherwise record an error naming the missing
version(s). -/
def mkVersionDiff (E : Collab) (keysOnly : Bool) (results : List (String × String))
    (vBase vTarget : String) : VersionDiff :=
  match List.lookup vBase results, List.lookup vTarget results with
  | some file1, some file2 =>
    match compareFiles E file1 file2 vBase vTarget keysOnly with
    | .error e =>
      { versionA := vBase, versionB := vTarget, diffResult := none,
        oldContent := "", newContent := "", error := e }
    | .ok (d, oldC, newC) =>
      { versionA := vBase, versionB := vTarget, diffResult := some d,
        oldContent := oldC, newContent := newC, error := "" }
  | r1, r2 =>
    let missing := (if r1.isNone then [vBase] else []) ++ (if r2.isNone then [vTarget] else [])
    { versionA := vBase, versionB := vTarget, diffResult := none,
      oldContent := "", newContent := "",
      error := "failed to get responses for version(s): " ++ joinStrings missing ", " }

/-- One scenario of `RunWithContext`: launch tasks, collect in channel
order, sort outcomes by version, then diff adjacent sorted pairs. -/
def runScenario (E : Collab) (cfg : Config) (versions : List String) (timeout : Int)
    (tc : TestCase) (order : List String) : CommandResult :=
  { testCaseName := tc.name,
    commands := tc.commands,
    diffs :=
      if versions.length > 1 then
        (adjPairs versions).map fun p =>
          mkVersionDiff E cfg.keysOnly
            (scenarioResults (scenarioOuts E timeout cfg tc order)) p.1 p.2
      else [],
    execInfo := sortOn (fun i => i.version)
      ((scenarioOuts E timeout cfg tc order).map (fun r => r.execInfo)) }

/-- Zero value of `CommandResult`: Go preallocates
`make([]CommandResult, len(testCases))`, so test cases never processed
(because of cancellation) stay as this zero value in the returned
report. -/
def zeroCommandResult : CommandResult :=
  { testCaseName := "", commands := [], diffs := [], execInfo := [] }

/-- The scenario loop of `RunWithContext`, carrying the scenario index:
at each iteration the cancellation signal is checked first; if it fired
the remaining slots stay zero, the cancellation message is appended to
the error list and the context error is returned. -/
def runScenarios (E : Collab) (ctx : Ctx) (cfg : Config) (versions : List String)
    (timeout : Int) (arrive : Nat → List String → List String) :
    Nat → List TestCase → List CommandResult × List String × Option String
  | _, [] => ([], [], none)
  | i, tc :: rest =>
    if ctx.doneAt i then
      ((tc :: rest).map (fun _ => zeroCommandResult),
       ["operation cancelled: " ++ ctx.errMsg], some ctx.errMsg)
    else
      (runScenario E cfg versions timeout tc (arrive i (launchedVersions versions tc))
          :: (runScenarios E ctx cfg versions timeout arrive (i + 1) rest).1,
       (runScenarios E ctx cfg versions timeout arrive (i + 1) rest).2)

/-- The run-wide sorted version label list, computed once per run from
the configured version map's keys. -/
def sortedVersions (cfg : Config) : List String :=
  sortStrings (cfg.versions.map Prod.fst)

/-- `Engine.RunWithContext`. -/
def RunWithContext (E : Collab) (ctx : Ctx) (cfg : Config)
    (arrive : Nat → List String → List String) : RunResult × Option String :=
  ({ commandResults := (runScenarios E ctx cfg (sortedVersions cfg) (GetTimeout cfg)
        arrive 0 (GetTestCases cfg)).1,
     errors := (runScenarios E ctx cfg (sortedVersions cfg) (GetTimeout cfg)
        arrive 0 (GetTestCases cfg)).2.1 },
   (runScenarios E ctx cfg (sortedVersions cfg) (GetTimeout cfg)
        arrive 0 (GetTestCases cfg)).2.2)

/-- Number of computed (non-error) pairwise diff results in a scenario
report. -/
def numDiffResults (cr : CommandResult) : Nat :=
  (cr.diffs.filter fun d => d.diffResult.isSome).length

/-! ### General helper lemmas -/

theorem joinStrings_data_head (sep a : String) (as : List String) :
    ∃ t, (joinStrings (a :: as) sep).data = a.data ++ t := by
  suffices h : ∀ (l : List String) (acc : String),
      ∃ t, (l.foldl (fun acc x => acc ++ sep ++ x) acc).data = acc.data ++ t by
    simpa [joinStrings] using h as a
  intro l
  induction l with
  | nil => intro acc; exact ⟨[], by simp⟩
  | cons x xs ih =>
    intro acc
    obtain ⟨t, ht⟩ := ih (acc ++ sep ++ x)
    refine ⟨sep.data ++ x.data ++ t, ?_⟩
    simp only [List.foldl_cons, ht]
    simp

theorem joinStrings_ne_of_head {msgs : List String} {c : Char} {target : String}
    (hne : msgs ≠ []) (hall : ∀ m ∈ msgs, m.data.head? = some c)
    (ht : target.data.head? ≠ some c) : joinStrings msgs ", " ≠ target := by
  cases msgs with
  | nil => exact absurd rfl hne
  | cons a as =>
    obtain ⟨t, hdata⟩ := joinStrings_data_head ", " a as
    intro he
    apply ht
    rw [← he, hdata]
    have ha := hall a (List.mem_cons_self a as)
    cases hd : a.data with
    | nil => rw [hd] at ha; simp at ha
    | cons c0 rest =>
      rw [hd] at ha
      simp at ha
      simp [hd, ha]

theorem sortStrings_eq_nil_iff {l : List String} : sortStrings l = [] ↔ l = [] := by
  constructor
  · intro h
    have := (sortOn_perm id l).length_eq
    rw [show sortOn id l = sortStrings l from rfl, h] at this
    exact List.length_eq_zero.mp this.symm
  · intro h; rw [h]; rfl

theorem mem_sortStrings {l : List String} {x : String} : x ∈ sortStrings l ↔ x ∈ l :=
  (sortOn_perm id l).mem_iff

theorem countChanged_eq_countP : ∀ (xs ys : List Json),
    countChanged xs ys = ((xs.zip ys).filter fun p => !(deepEqual p.1 p.2)).length := by
  intro xs
  induction xs with
  | nil => intro ys; cases ys <;> simp [countChanged]
  | cons x xs ih =>
    intro ys
    cases ys with
    | nil => simp [countChanged]
    | cons y ys =>
      simp only [countChanged, List.zip_cons_cons, List.filter_cons]
      by_cases h : deepEqual x y <;> (simp [h, ih ys]; try omega)

/-! ### Concrete collaborator fixtures used by witnesses and
counterexamples -/

def mkCollab (parse : String → Option Json) : Collab :=
  { parseJSON := parse
    unifiedDiff := fun _ _ _ _ _ => "D"
    jsonPatch := fun _ _ => "[]"
    shellParse := fun s => .ok [s]
    runCmd := fun _ _ => { stdout := "OK", stderr := "", runErr := none, deadlineExceeded := false }
    save := fun _ v _ _ => .ok ("F" ++ v)
    readFile := fun _ => .ok "OK"
    showDur := fun n => toString n ++ "s" }

def parseFixture : String → Option Json
  | "arrA" => some (.arr [.num 1, .num 2, .num 3])
  | "arrB" => some (.arr [.num 1, .num 9, .num 3])
  | "arr1" => some (.arr [.num 1])
  | "objA" => some (.obj [("a", .num 1)])
  | "objAB" => some (.obj [("a", .num 1), ("b", .num 2)])
  | "objA99B" => some (.obj [("a", .num 99), ("b", .num 2)])
  | _ => none

def fixtureCollab : Collab := mkCollab parseFixture

/-! ### Claim C5 -/

/-- C5 (amended): in full mode, when both inputs parse as JSON arrays,
the summary is `summarizeArrayDifferences`; for equal lengths it is
"Array: K of N items changed" with K the number of positions that are
not deep-structurally-equal, **provided K ≥ 1** — for K = 0 the code
emits the no-difference sentinel "No top-level changes" instead; for
differing lengths it reports the length change. -/
theorem arraySummaryAmended (E : Collab) (a b n1 n2 : String) (xs ys : List Json)
    (hpa : E.parseJSON a = some (.arr xs)) (hpb : E.parseJSON b = some (.arr ys)) :
    (CompareWithOptions E a b n1 n2 { keysOnly := false }).summary
        = summarizeArrayDifferences xs ys
    ∧ (xs.length ≠ ys.length →
        summarizeArrayDifferences xs ys
          = "Array length changed: " ++ toString xs.length ++ " → "
              ++ toString ys.length ++ " items")
    ∧ (xs.length = ys.length →
        1 ≤ ((xs.zip ys).filter fun p => !(deepEqual p.1 p.2)).length →
        summarizeArrayDifferences xs ys
          = "Array: " ++ toString ((xs.zip ys).filter fun p => !(deepEqual p.1 p.2)).length
              ++ " of " ++ toString xs.length ++ " items changed")
    ∧ (xs.length = ys.length →
        ((xs.zip ys).filter fun p => !(deepEqual p.1 p.2)).length = 0 →
        summarizeArrayDifferences xs ys = "No top-level changes") := by
  have hc := countChanged_eq_countP xs ys
  refine ⟨?_, ?_, ?_, ?_⟩
  · simp [CompareWithOptions, hpa, hpb, compareAsJSON, summarizeDifferences]
  · intro h
    simp only [summarizeArrayDifferences, if_pos h]
  · intro hlen hK
    have h1 : ¬ (xs.length ≠ ys.length) := fun hh => hh hlen
    have h2 : ¬ (countChanged xs ys = 0) := by omega
    simp only [summarizeArrayDifferences, if_neg h1, if_neg h2, hc]
    rw [if_neg (by omega)]
  · intro hlen hK
    have h1 : ¬ (xs.length ≠ ys.length) := fun hh => hh hlen
    have h2 : countChanged xs ys = 0 := by omega
    simp only [summarizeArrayDifferences, if_neg h1, if_pos h2]

/-- C5 counterexample: full compare of two copies of `[1]` (both parse,
equal length 1, zero changed positions) yields "No top-level changes",
not "Array: 0 of 1 items changed" as the claim, read literally,
requires. -/
theorem arraySummaryCounterexample :
    (CompareWithOptions fixtureCollab "arr1" "arr1" "v1" "v2" { keysOnly := false }).summary
        = "No top-level changes"
    ∧ "No top-level changes" ≠ "Array: 0 of 1 items changed" :=
  ⟨by decide, by decide⟩

/-- C5 witness: the spec's own example, `[1,2,3]` vs `[1,9,3]`. -/
theorem arraySummaryWitness :
    (CompareWithOptions fixtureCollab "arrA" "arrB" "v1" "v2" { keysOnly := false }).summary
      = "Array: 1 of 3 items changed" :=
  (arraySummaryAmended fixtureCollab "arrA" "arrB" "v1" "v2"
    [.num 1, .num 2, .num 3] [.num 1, .num 9, .num 3] rfl rfl).1.trans (by decide)

/-! ### Claim C1 -/

/-- C1: whenever either buffer fails to parse as JSON, `Compare`
degrades to the text path instead of failing: the result is non-JSON,
carries the empty patch, its summary names the invalid side (or that
both are non-JSON) with the identical-content suffix appended for
byte-identical buffers, and its diff body is the 3-context unified diff
over the raw text — suppressed (empty) when the buffers are
byte-identical.  (The Go error return on this path can only arise from
writing the diff to an in-memory buffer and is dead; the model is
total, so no hard failure is possible.) -/
theorem compareNonJSONFallback (E : Collab) (a b n1 n2 : String) (opts : CompareOptions)
    (h : E.parseJSON a = none ∨ E.parseJSON b = none) :
    (CompareWithOptions E a b n1 n2 opts).isJSON = false
    ∧ (CompareWithOptions E a b n1 n2 opts).jsonPatch = "[]"
    ∧ (E.parseJSON a = none → E.parseJSON b = none →
        (CompareWithOptions E a b n1 n2 opts).summary
          = "Both responses are non-JSON content"
            ++ (if a = b then " (content is identical)" else ""))
    ∧ (E.parseJSON a = none → E.parseJSON b ≠ none →
        (CompareWithOptions E a b n1 n2 opts).summary
          = "Response from " ++ n1 ++ " is not valid JSON"
            ++ (if a = b then " (content is identical)" else ""))
    ∧ (E.parseJSON a ≠ none → E.parseJSON b = none →
        (CompareWithOptions E a b n1 n2 opts).summary
          = "Response from " ++ n2 ++ " is not valid JSON"
            ++ (if a = b then " (content is identical)" else ""))
    ∧ (CompareWithOptions E a b n1 n2 opts).textDiff
        = (if a = b then ""
           else E.unifiedDiff (splitLines a) (splitLines b) n1 n2 3) := by
  cases hpa : E.parseJSON a with
  | some v1 =>
    cases hpb : E.parseJSON b with
    | some v2 =>
      rw [hpa, hpb] at h
      rcases h with h | h <;> simp at h
    | none =>
      by_cases hab : a = b
      · exfalso; rw [hab] at hpa; rw [hpa] at hpb; cases hpb
      · simp [CompareWithOptions, hpa, hpb, compareAsText, hab]
  | none =>
    cases hpb : E.parseJSON b with
    | some v2 =>
      by_cases hab : a = b
      · exfalso; rw [hab] at hpa; rw [hpa] at hpb; cases hpb
      · simp [CompareWithOptions, hpa, hpb, compareAsText, hab]
    | none =>
      by_cases hab : a = b <;>
        simp [CompareWithOptions, hpa, hpb, compareAsText, hab]

/-- C1 witness: two identical non-JSON buffers: the summary states both
sides are non-JSON and appends the identical-content fact; the diff
body is suppressed. -/
theorem compareNonJSONFallbackWitness :
    (CompareWithOptions fixtureCollab "plain" "plain" "v1" "v2" { keysOnly := false }).summary
        = "Both responses are non-JSON content (content is identical)"
    ∧ (CompareWithOptions fixtureCollab "plain" "plain" "v1" "v2" { keysOnly := false }).textDiff
        = "" := by
  have h := compareNonJSONFallback fixtureCollab "plain" "plain" "v1" "v2"
    { keysOnly := false } (Or.inl rfl)
  refine ⟨(h.2.2.1 rfl rfl).trans (by decide), h.2.2.2.2.2.trans (by decide)⟩

/-! ### Claim C6 -/

theorem string_append_data (s t : String) : (s ++ t).data = s.data ++ t.data := rfl

/-- Summary construction described by the specification for keys-only
mode, phrased over the two collected path sets: left-only paths are
reported removed, right-only paths added, messages alphabetically
sorted and comma-joined, with the fixed sentinel when no path differs. -/
def keysOnlySummarySpec (keys1 keys2 : List String) : String :=
  let removed := (keys1.filter fun k => !(keys2.contains k)).map
    fun k => "Key '" ++ k ++ "' removed"
  let added := (keys2.filter fun k => !(keys1.contains k)).map
    fun k => "Key '" ++ k ++ "' added"
  let changes := sortStrings (removed ++ added)
  if changes.isEmpty then "No structural changes (keys match)"
  else joinStrings changes ", "

theorem keyMsg_head (pre k suf : String) {c : Char} (h : pre.data.head? = some c) :
    (pre ++ k ++ suf).data.head? = some c := by
  rw [string_append_data, string_append_data]
  cases hd : pre.data with
  | nil => rw [hd] at h; cases h
  | cons a l =>
    rw [hd] at h
    injection h with h
    subst h
    simp

theorem filterNotMem_nil_iff (K1 K2 : List String) :
    (K1.filter fun k => !(K2.contains k)) = [] ↔ ∀ k ∈ K1, k ∈ K2 := by
  rw [List.filter_eq_nil_iff]
  constructor
  · intro h k hk
    have h2 := h k hk
    cases hc : K2.contains k
    · exact absurd (by rw [hc]; rfl) h2
    · exact List.elem_iff.mp hc
  · intro h k hk
    have hc : K2.contains k = true := List.elem_iff.mpr (h k hk)
    intro hx
    rw [hc] at hx
    simp at hx

/-- The keys-only sentinel appears exactly when the two path sets have
the same members. -/
theorem keysOnlySummarySpec_sentinel_iff (K1 K2 : List String) :
    keysOnlySummarySpec K1 K2 = "No structural changes (keys match)"
      ↔ (∀ k, k ∈ K1 ↔ k ∈ K2) := by
  simp only [keysOnlySummarySpec]
  set removed := (K1.filter fun k => !(K2.contains k)).map
    (fun k => "Key '" ++ k ++ "' removed") with hrem
  set added := (K2.filter fun k => !(K1.contains k)).map
    (fun k => "Key '" ++ k ++ "' added") with hadd
  by_cases hch : removed ++ added = []
  · have hs : sortStrings (removed ++ added) = [] := sortStrings_eq_nil_iff.mpr hch
    rw [hs]
    obtain ⟨h1, h2⟩ := List.append_eq_nil.mp hch
    have hsub1 : ∀ k ∈ K1, k ∈ K2 :=
      (filterNotMem_nil_iff K1 K2).mp (List.map_eq_nil_iff.mp h1)
    have hsub2 : ∀ k ∈ K2, k ∈ K1 :=
      (filterNotMem_nil_iff K2 K1).mp (List.map_eq_nil_iff.mp h2)
    exact iff_of_true (by simp)
      (fun k => ⟨fun hk => hsub1 k hk, fun hk => hsub2 k hk⟩)
  · have hne : ¬ (sortStrings (removed ++ added)).isEmpty = true := by
      rw [List.isEmpty_iff, sortStrings_eq_nil_iff]
      exact hch
    rw [if_neg hne]
    constructor
    · intro hj
      exfalso
      refine joinStrings_ne_of_head (c := 'K') ?_ ?_ ?_ hj
      · rw [Ne, sortStrings_eq_nil_iff]
        exact hch
      · intro m hm
        rcases List.mem_append.mp (mem_sortStrings.mp hm) with h | h
        · obtain ⟨k, _, rfl⟩ := List.mem_map.mp h
          exact keyMsg_head "Key '" k "' removed" rfl
        · obtain ⟨k, _, rfl⟩ := List.mem_map.mp h
          exact keyMsg_head "Key '" k "' added" rfl
      · decide
    · intro hR
      exfalso
      apply hch
      rw [List.append_eq_nil]
      refine ⟨?_, ?_⟩
      · rw [hrem, List.map_eq_nil_iff]
        exact (filterNotMem_nil_iff K1 K2).mpr (fun k hk => (hR k).mp hk)
      · rw [hadd, List.map_eq_nil_iff]
        exact (filterNotMem_nil_iff K2 K1).mpr (fun k hk => (hR k).mpr hk)

/-- C6: in keys-only mode on valid-JSON inputs, the summary is exactly
the specification's construction over the reachable key paths of the
two skeletons (left-only paths removed, right-only added, sorted and
comma-joined), and it is the sentinel "No structural changes (keys
match)" precisely when the two path sets coincide — in particular when
only scalar values differ. -/
theorem keysOnlySummary (E : Collab) (a b n1 n2 : String) (v1 v2 : Json)
    (hpa : E.parseJSON a = some v1) (hpb : E.parseJSON b = some v2) :
    (CompareWithOptions E a b n1 n2 { keysOnly := true }).summary
        = keysOnlySummarySpec (collectAllKeys (extractKeys v1) "")
            (collectAllKeys (extractKeys v2) "")
    ∧ ((CompareWithOptions E a b n1 n2 { keysOnly := true }).summary
          = "No structural changes (keys match)"
        ↔ (∀ k, k ∈ collectRaw (extractKeys v1) ""
              ↔ k ∈ collectRaw (extractKeys v2) "")) := by
  have h1 : (CompareWithOptions E a b n1 n2 { keysOnly := true }).summary
      = summarizeKeyDifferences (extractKeys v1) (extractKeys v2) := by
    simp [CompareWithOptions, hpa, hpb, compareAsJSON]
  have h2 : summarizeKeyDifferences (extractKeys v1) (extractKeys v2)
      = keysOnlySummarySpec (collectAllKeys (extractKeys v1) "")
          (collectAllKeys (extractKeys v2) "") := rfl
  refine ⟨h1.trans h2, ?_⟩
  rw [h1, h2, keysOnlySummarySpec_sentinel_iff]
  have hmem : ∀ (w : Json) (k : String),
      k ∈ collectAllKeys w "" ↔ k ∈ collectRaw w "" := by
    intro w k
    exact List.mem_dedup
  constructor
  · intro h k
    rw [← hmem, ← hmem]
    exact h k
  · intro h k
    rw [hmem, hmem]
    exact h k

/-- C6 witness: the spec's example, keys-only compare of two objects
differing only in a scalar value. -/
theorem keysOnlySummaryWitness :
    (CompareWithOptions fixtureCollab "objAB" "objA99B" "v1" "v2"
      { keysOnly := true }).summary = "No structural changes (keys match)" := by
  have h := keysOnlySummary fixtureCollab "objAB" "objA99B" "v1" "v2"
    (.obj [("a", .num 1), ("b", .num 2)]) (.obj [("a", .num 99), ("b", .num 2)]) rfl rfl
  exact h.1.trans (by decide)

/-! ### Association list lemmas (Go map lookups; keys unique) -/

theorem mem_of_lookup_eq_some {β : Type} {l : List (String × β)} {k : String} {v : β}
    (h : List.lookup k l = some v) : (k, v) ∈ l := by
  induction l with
  | nil => cases h
  | cons p rest ih =>
    obtain ⟨pk, pv⟩ := p
    by_cases he : k = pk
    · subst he
      simp only [List.lookup, beq_self_eq_true] at h
      injection h with h
      subst h
      exact List.mem_cons_self _ _
    · have hb : (k == pk) = false := beq_eq_false_iff_ne.mpr he
      simp only [List.lookup, hb] at h
      exact List.mem_cons_of_mem _ (ih h)

theorem lookup_eq_some_of_mem {β : Type} {l : List (String × β)} {k : String} {v : β}
    (hnd : (l.map Prod.fst).Nodup) (hm : (k, v) ∈ l) : List.lookup k l = some v := by
  induction l with
  | nil => cases hm
  | cons p rest ih =>
    obtain ⟨pk, pv⟩ := p
    simp only [List.map_cons, List.nodup_cons] at hnd
    rcases List.mem_cons.mp hm with h | h
    · injection h with h1 h2
      subst h1
      subst h2
      simp [List.lookup]
    · have hne : k ≠ pk := by
        intro he
        subst he
        exact hnd.1 (List.mem_map.mpr ⟨(k, v), h, rfl⟩)
      have hb : (k == pk) = false := beq_eq_false_iff_ne.mpr hne
      simp only [List.lookup, hb]
      exact ih hnd.2 h

theorem lookup_isSome_iff {β : Type} {l : List (String × β)} {k : String} :
    (List.lookup k l).isSome = true ↔ k ∈ l.map Prod.fst := by
  induction l with
  | nil => simp [List.lookup]
  | cons p rest ih =>
    obtain ⟨pk, pv⟩ := p
    by_cases he : k = pk
    · subst he
      simp [List.lookup]
    · have hb : (k == pk) = false := beq_eq_false_iff_ne.mpr he
      simp [List.lookup, hb, ih, he]

theorem lookup_eq_of_perm {β : Type} {l₁ l₂ : List (String × β)}
    (hp : l₁.Perm l₂) (hnd : (l₁.map Prod.fst).Nodup) (k : String) :
    List.lookup k l₁ = List.lookup k l₂ := by
  have hnd₂ : (l₂.map Prod.fst).Nodup := ((hp.map Prod.fst).nodup_iff).mp hnd
  cases h1 : List.lookup k l₁ with
  | some v =>
    exact (lookup_eq_some_of_mem hnd₂ (hp.mem_iff.mp (mem_of_lookup_eq_some h1))).symm
  | none =>
    cases h2 : List.lookup k l₂ with
    | none => rfl
    | some v =>
      have := lookup_eq_some_of_mem hnd (hp.mem_iff.mpr (mem_of_lookup_eq_some h2))
      rw [h1] at this
      cases this

/-- Split a `filterMap` whose function acts as `g1` on elements where
`g1` yields a value and as `g2` elsewhere (with `g1` and `g2` never
both producing): the output is a permutation of the two separate
passes concatenated. -/
theorem filterMap_split_perm {α β : Type} (g g1 g2 : α → Option β) (l : List α)
    (hsome : ∀ x ∈ l, ∀ b, g1 x = some b → g x = some b)
    (hnone : ∀ x ∈ l, g1 x = none → g x = g2 x)
    (hd : ∀ x ∈ l, (g1 x).isSome = true → g2 x = none) :
    (l.filterMap g).Perm (l.filterMap g1 ++ l.filterMap g2) := by
  induction l with
  | nil => simp
  | cons x xs ih =>
    have ih' := ih (fun y hy => hsome y (List.mem_cons_of_mem x hy))
      (fun y hy => hnone y (List.mem_cons_of_mem x hy))
      (fun y hy => hd y (List.mem_cons_of_mem x hy))
    cases hg1 : g1 x with
    | some b =>
      have hg : g x = some b := hsome x (List.mem_cons_self x xs) b hg1
      have hg2 : g2 x = none := hd x (List.mem_cons_self x xs) (by rw [hg1]; rfl)
      rw [List.filterMap_cons, List.filterMap_cons, List.filterMap_cons, hg, hg1, hg2]
      simpa using ih'.cons b
    | none =>
      have hg : g x = g2 x := hnone x (List.mem_cons_self x xs) hg1
      cases hg2 : g2 x with
      | none =>
        rw [List.filterMap_cons, List.filterMap_cons, List.filterMap_cons, hg, hg1, hg2]
        simpa using ih'
      | some c =>
        rw [List.filterMap_cons, List.filterMap_cons, List.filterMap_cons, hg, hg1, hg2]
        exact (ih'.cons c).trans List.perm_middle.symm

theorem filter_map_to_filterMap {α β : Type} (key : α → String) (p : String → Bool)
    (msg : String → β) (l : List α) :
    ((l.map key).filter p).map msg
      = l.filterMap fun x => if p (key x) then some (msg (key x)) else none := by
  induction l with
  | nil => rfl
  | cons x xs ih =>
    by_cases h : p (key x) = true <;>
      simp [List.filterMap_cons, List.filter_cons, h, ih]

/-! ### Claim C7 -/

/-- Summary construction described by the specification for full-mode
object comparison, phrased over the two key lists: removed, changed and
added top-level field names, where a shared field counts as changed iff
its values are not deep-structurally-equal; messages sorted and
comma-joined with the fixed sentinel when nothing differs. -/
def objectSummarySpec (fs1 fs2 : List (String × Json)) : String :=
  let ks1 := fs1.map Prod.fst
  let ks2 := fs2.map Prod.fst
  let removed := (ks1.filter fun k => !(ks2.contains k)).map
    fun k => "Field '" ++ k ++ "' removed"
  let changed := (ks1.filter fun k =>
      match List.lookup k fs1, List.lookup k fs2 with
      | some w1, some w2 => !(deepEqual w1 w2)
      | _, _ => false).map fun k => "Field '" ++ k ++ "' changed"
  let added := (ks2.filter fun k => !(ks1.contains k)).map
    fun k => "Field '" ++ k ++ "' added"
  let changes := sortStrings (removed ++ changed ++ added)
  if changes.isEmpty then "No top-level changes"
  else joinStrings changes ", "

theorem bnot_ne_true_of_true {b : Bool} (hb : b = true) : ¬ ((!b) = true) := by
  subst hb; decide

theorem bnot_eq_true_of_false {b : Bool} (hb : b = false) : (!b) = true := by
  subst hb; rfl

theorem contains_lookup_none {β : Type} {l : List (String × β)} {k : String}
    (h : (l.map Prod.fst).contains k = false) : List.lookup k l = none := by
  cases hl : List.lookup k l with
  | none => rfl
  | some w =>
    have hm : List.elem k (List.map Prod.fst l) = true :=
      List.elem_iff.mpr (lookup_isSome_iff.mp (by rw [hl]; rfl))
    have h' : List.elem k (List.map Prod.fst l) = false := h
    rw [hm] at h'
    cases h'

theorem contains_lookup_isSome {β : Type} {l : List (String × β)} {k : String}
    (h : (l.map Prod.fst).contains k = true) : (List.lookup k l).isSome = true :=
  lookup_isSome_iff.mpr (List.elem_iff.mp h)

theorem summarizeObjectDifferences_eq_spec (fs1 fs2 : List (String × Json))
    (hnd1 : (fs1.map Prod.fst).Nodup) :
    summarizeObjectDifferences fs1 fs2 = objectSummarySpec fs1 fs2 := by
  have hpart1 : (fs1.filterMap fun p =>
      match List.lookup p.1 fs2 with
      | none => some ("Field '" ++ p.1 ++ "' removed")
      | some v2 =>
        if deepEqual p.2 v2 then none else some ("Field '" ++ p.1 ++ "' changed")).Perm
      (((fs1.map Prod.fst).filter fun k => !((fs2.map Prod.fst).contains k)).map
          (fun k => "Field '" ++ k ++ "' removed")
        ++ ((fs1.map Prod.fst).filter fun k =>
            match List.lookup k fs1, List.lookup k fs2 with
            | some w1, some w2 => !(deepEqual w1 w2)
            | _, _ => false).map (fun k => "Field '" ++ k ++ "' changed")) := by
    rw [filter_map_to_filterMap Prod.fst
      (fun k => !((fs2.map Prod.fst).contains k)) (fun k => "Field '" ++ k ++ "' removed") fs1]
    rw [filter_map_to_filterMap Prod.fst
      (fun k =>
        match List.lookup k fs1, List.lookup k fs2 with
        | some w1, some w2 => !(deepEqual w1 w2)
        | _, _ => false) (fun k => "Field '" ++ k ++ "' changed") fs1]
    apply filterMap_split_perm
    · intro x hx c hc
      cases hcon : (fs2.map Prod.fst).contains x.1 with
      | true =>
        rw [hcon] at hc
        rw [if_neg (by decide)] at hc
        cases hc
      | false =>
        rw [hcon] at hc
        rw [if_pos (by decide)] at hc
        injection hc with hc
        simp only [contains_lookup_none hcon]
        exact congrArg some hc
    · intro x hx hg1
      cases hcon : (fs2.map Prod.fst).contains x.1 with
      | false =>
        rw [hcon] at hg1
        rw [if_pos (by decide)] at hg1
        cases hg1
      | true =>
        have hv : List.lookup x.1 fs1 = some x.2 :=
          lookup_eq_some_of_mem hnd1 hx
        have hsome2 := contains_lookup_isSome (l := fs2) hcon
        cases hl2 : List.lookup x.1 fs2 with
        | none => rw [hl2] at hsome2; cases hsome2
        | some w2 =>
          simp only [hl2, hv]
          by_cases hde : deepEqual x.2 w2 = true <;> simp [hde]
    · intro x hx hg1
      cases hcon : (fs2.map Prod.fst).contains x.1 with
      | true =>
        rw [hcon] at hg1
        rw [if_neg (by decide)] at hg1
        cases hg1
      | false =>
        cases hl1 : List.lookup x.1 fs1 <;>
          simp [hl1, contains_lookup_none hcon]
  have hpart2 : (fs2.filterMap fun p =>
      if (List.lookup p.1 fs1).isSome then none
      else some ("Field '" ++ p.1 ++ "' added"))
      = ((fs2.map Prod.fst).filter fun k => !((fs1.map Prod.fst).contains k)).map
          (fun k => "Field '" ++ k ++ "' added") := by
    rw [filter_map_to_filterMap Prod.fst
      (fun k => !((fs1.map Prod.fst).contains k)) (fun k => "Field '" ++ k ++ "' added") fs2]
    apply List.filterMap_congr
    intro x hx
    cases hcon : (fs1.map Prod.fst).contains x.1 with
    | true =>
      rw [if_pos (contains_lookup_isSome (l := fs1) hcon)]
      rfl
    | false =>
      rw [if_neg (by rw [contains_lookup_none hcon]; simp)]
      rfl
  simp only [summarizeObjectDifferences, objectSummarySpec]
  have hperm : ((fs1.filterMap fun p =>
      match List.lookup p.1 fs2 with
      | none => some ("Field '" ++ p.1 ++ "' removed")
      | some v2 =>
        if deepEqual p.2 v2 then none else some ("Field '" ++ p.1 ++ "' changed"))
      ++ fs2.filterMap fun p =>
        if (List.lookup p.1 fs1).isSome then none
        else some ("Field '" ++ p.1 ++ "' added")).Perm
      ((((fs1.map Prod.fst).filter fun k => !((fs2.map Prod.fst).contains k)).map
          (fun k => "Field '" ++ k ++ "' removed")
        ++ ((fs1.map Prod.fst).filter fun k =>
            match List.lookup k fs1, List.lookup k fs2 with
            | some w1, some w2 => !(deepEqual w1 w2)
            | _, _ => false).map (fun k => "Field '" ++ k ++ "' changed"))
        ++ ((fs2.map Prod.fst).filter fun k => !((fs1.map Prod.fst).contains k)).map
          (fun k => "Field '" ++ k ++ "' added")) := by
    rw [hpart2]
    exact hpart1.append_right _
  rw [sortStrings_eq_of_perm hperm]

/-- C7: in full mode on two JSON objects, the summary is exactly the
specification's construction: removed, changed and added top-level
field names, sorted and comma-joined, where a shared field is changed
iff its values are not deep-structurally-equal under canonical
re-serialization (`deepEqual` is definitionally canonical-marshal
equality, and is strictly finer than the `fmt`-string coercion some
older code used: a number and a numeric string coincide under the
latter but differ under `deepEqual`); when nothing differs the sentinel
"No top-level changes" results. -/
theorem objectSummary (E : Collab) (a b n1 n2 : String)
    (fs1 fs2 : List (String × Json))
    (hpa : E.parseJSON a = some (.obj fs1)) (hpb : E.parseJSON b = some (.obj fs2))
    (hnd1 : (fs1.map Prod.fst).Nodup) :
    (CompareWithOptions E a b n1 n2 { keysOnly := false }).summary
        = objectSummarySpec fs1 fs2
    ∧ (∀ w1 w2 : Json, deepEqual w1 w2 = (marshal w1 == marshal w2))
    ∧ (∃ w1 w2 : Json, goFormat w1 = goFormat w2 ∧ deepEqual w1 w2 = false) := by
  refine ⟨?_, fun _ _ => rfl, ⟨.num 1, .str "1", by decide, by decide⟩⟩
  have h1 : (CompareWithOptions E a b n1 n2 { keysOnly := false }).summary
      = summarizeObjectDifferences fs1 fs2 := by
    simp [CompareWithOptions, hpa, hpb, compareAsJSON, summarizeDifferences]
  exact h1.trans (summarizeObjectDifferences_eq_spec fs1 fs2 hnd1)

/-- C7 witness: the spec's example, full compare of `{"a":1}` vs
`{"a":1,"b":2}`. -/
theorem objectSummaryWitness :
    (CompareWithOptions fixtureCollab "objA" "objAB" "v1" "v2"
      { keysOnly := false }).summary = "Field 'b' added" := by
  have h := objectSummary fixtureCollab "objA" "objAB" "v1" "v2"
    [("a", .num 1)] [("a", .num 1), ("b", .num 2)] rfl rfl (by decide)
  exact h.1.trans (by decide)

/-! ### Claim C10 -/

theorem mapIdx_get? {α β : Type} :
    ∀ (l : List α) (f : Nat → α → β) (i : Nat),
      (l.mapIdx f).get? i = (l.get? i).map (f i) := by
  intro l
  induction l with
  | nil => intro f i; simp
  | cons a as ih =>
    intro f i
    rw [List.mapIdx_cons]
    cases i with
    | zero => simp
    | succ k =>
      simp only [List.get?_cons_succ]
      exact ih (fun j => f (j + 1)) k

/-- A Go map built by assigning the same value to every key of
`versions` answers that value exactly on the configured keys. -/
theorem lookup_const_map (versions : List (String × String)) (cmd v : String) :
    List.lookup v (versions.map fun p => (p.1, cmd))
      = if (versions.map Prod.fst).contains v then some cmd else none := by
  induction versions with
  | nil => rfl
  | cons p rest ih =>
    simp only [List.map_cons]
    cases hb : v == p.1 with
    | true =>
      have h1 : List.lookup v ((p.1, cmd) :: rest.map fun p => (p.1, cmd))
          = some cmd := by
        simp [List.lookup, hb]
      have hcon : (p.1 :: rest.map Prod.fst).contains v = true := by
        simp [List.contains_cons, hb]
      rw [h1, if_pos hcon]
    | false =>
      have h1 : List.lookup v ((p.1, cmd) :: rest.map fun p => (p.1, cmd))
          = List.lookup v (rest.map fun p => (p.1, cmd)) := by
        simp [List.lookup, hb]
      have h2 : (p.1 :: rest.map Prod.fst).contains v
          = (rest.map Prod.fst).contains v := by
        simp [List.contains_cons, hb]
      rw [h1, ih]
      simp only [h2]

theorem taskRun_cfg_congr (E : Collab) (timeout : Int) {c1 c2 : Config}
    (hv : c1.versions = c2.versions) (tc : TestCase) (v : String) :
    taskRun E timeout c1 tc v = taskRun E timeout c2 tc v := by
  unfold taskRun
  rw [hv]

theorem runScenario_cfg_congr (E : Collab) {c1 c2 : Config}
    (hv : c1.versions = c2.versions) (hk : c1.keysOnly = c2.keysOnly)
    (versions : List String) (timeout : Int) (tc : TestCase) (order : List String) :
    runScenario E c1 versions timeout tc order
      = runScenario E c2 versions timeout tc order := by
  have ht : scenarioOuts E timeout c1 tc order = scenarioOuts E timeout c2 tc order := by
    unfold scenarioOuts
    rw [funext (taskRun_cfg_congr E timeout hv tc)]
  unfold runScenario
  rw [ht, hk]

theorem runScenarios_cfg_congr (E : Collab) (ctx : Ctx) {c1 c2 : Config}
    (hv : c1.versions = c2.versions) (hk : c1.keysOnly = c2.keysOnly)
    (versions : List String) (timeout : Int)
    (arrive : Nat → List String → List String) :
    ∀ (i : Nat) (tcs : List TestCase),
      runScenarios E ctx c1 versions timeout arrive i tcs
        = runScenarios E ctx c2 versions timeout arrive i tcs := by
  intro i tcs
  induction tcs generalizing i with
  | nil => rfl
  | cons tc rest ih =>
    rw [runScenarios, runScenarios]
    by_cases hd : ctx.doneAt i = true
    · rw [if_pos hd, if_pos hd]
    · rw [if_neg hd, if_neg hd,
        runScenario_cfg_congr E hv hk versions timeout tc
          (arrive i (launchedVersions versions tc)),
        ih (i + 1)]

/-- `GetTestCases` is idempotent as a normalization: feeding its own
output back in (as the test-case list of a config with no legacy
commands) returns it unchanged. -/
theorem GetTestCases_stable (c : Config) :
    GetTestCases { versions := c.versions, commands := [],
                   testCases := GetTestCases c, keysOnly := c.keysOnly,
                   timeout := c.timeout }
      = GetTestCases c := by
  cases h : GetTestCases c with
  | nil => rfl
  | cons tc rest => simp [GetTestCases]

/-- C10: a legacy flat command list normalizes to one scenario per
command, in order, named "Command i" (1-based), each mapping every
configured version label to that same command; a non-empty test-case
list is returned unchanged; and running the legacy config is the same
as running its normalized matrix form. -/
theorem legacyNormalization (E : Collab) (ctx : Ctx) (c : Config)
    (arrive : Nat → List String → List String) :
    (c.testCases ≠ [] → GetTestCases c = c.testCases)
    ∧ (c.testCases = [] →
        (GetTestCases c).length = c.commands.length
        ∧ ∀ i : Nat, (GetTestCases c).get? i
            = (c.commands.get? i).map fun cmd =>
                { name := "Command " ++ toString (i + 1),
                  commands := c.versions.map fun p => (p.1, cmd) })
    ∧ (∀ (cmd v : String) (versions : List (String × String)),
        List.lookup v (versions.map fun p => (p.1, cmd))
          = if (versions.map Prod.fst).contains v then some cmd else none)
    ∧ RunWithContext E ctx c arrive
        = RunWithContext E ctx
            { versions := c.versions, commands := [], testCases := GetTestCases c,
               keysOnly := c.keysOnly, timeout := c.timeout } arrive := by
  refine ⟨?_, ?_, fun cmd v versions => lookup_const_map versions cmd v, ?_⟩
  · intro h
    have : 0 < c.testCases.length := List.length_pos.mpr h
    simp [GetTestCases, this]
  · intro h
    have hg : GetTestCases c = c.commands.mapIdx fun i cmd =>
        { name := "Command " ++ toString (i + 1),
          commands := c.versions.map fun p => (p.1, cmd) } := by
      simp [GetTestCases, h]
    constructor
    · rw [hg]
      simp
    · intro i
      rw [hg, mapIdx_get?]
  · unfold RunWithContext
    rw [GetTestCases_stable c]
    have h1 : sortedVersions { versions := c.versions, commands := [],
                               testCases := GetTestCases c, keysOnly := c.keysOnly,
                               timeout := c.timeout } = sortedVersions c := rfl
    have h2 : GetTimeout { versions := c.versions, commands := [],
                           testCases := GetTestCases c, keysOnly := c.keysOnly,
                           timeout := c.timeout } = GetTimeout c := rfl
    rw [h1, h2]
    rw [@runScenarios_cfg_congr E ctx c
      { versions := c.versions, commands := [], testCases := GetTestCases c,
        keysOnly := c.keysOnly, timeout := c.timeout } rfl rfl
      (sortedVersions c) (GetTimeout c) arrive 0 (GetTestCases c)]

/-- C10 witness: a two-command legacy config normalizes to two named
scenarios and runs identically to its matrix form. -/
theorem legacyNormalizationWitness :
    GetTestCases { versions := [("a", "u")], commands := ["C1", "C2"],
                   testCases := [], keysOnly := false, timeout := 5 }
      = [{ name := "Command 1", commands := [("a", "C1")] },
         { name := "Command 2", commands := [("a", "C2")] }]
    ∧ (GetTestCases { versions := [("a", "u")], commands := ["C1", "C2"],
                      testCases := [], keysOnly := false, timeout := 5 }).get? 0
      = some { name := "Command 1", commands := [("a", "C1")] } := by
  have h := legacyNormalization fixtureCollab
    { doneAt := fun _ => false, errMsg := "context canceled" }
    { versions := [("a", "u")], commands := ["C1", "C2"],
      testCases := [], keysOnly := false, timeout := 5 } (fun _ L => L)
  exact ⟨by decide, ((h.2.1 rfl).2 0).trans (by decide)⟩

/-! ### Scenario-loop characterizations (shared by the cancellation and
timeout claims) -/

/-- The report entry the coordinator produces for the test case at
index `i` of an uncancelled run. -/
def scenarioAt (E : Collab) (cfg : Config) (versions : List String) (timeout : Int)
    (arrive : Nat → List String → List String) (i : Nat) (tc : TestCase) : CommandResult :=
  runScenario E cfg versions timeout tc (arrive i (launchedVersions versions tc))

theorem runScenarios_all_clear (E : Collab) (ctx : Ctx) (cfg : Config)
    (versions : List String) (timeout : Int)
    (arrive : Nat → List String → List String)
    (h : ∀ j, ctx.doneAt j = false) :
    ∀ (i : Nat) (tcs : List TestCase),
      runScenarios E ctx cfg versions timeout arrive i tcs
        = (tcs.mapIdx (fun j tc => scenarioAt E cfg versions timeout arrive (i + j) tc),
           [], none) := by
  intro i tcs
  induction tcs generalizing i with
  | nil => simp [runScenarios]
  | cons tc rest ih =>
    rw [runScenarios, if_neg (by rw [h i]; simp)]
    rw [ih (i + 1)]
    rw [List.mapIdx_cons]
    have harith : (fun j tc => scenarioAt E cfg versions timeout arrive (i + (j + 1)) tc)
        = (fun j tc => scenarioAt E cfg versions timeout arrive ((i + 1) + j) tc) := by
      funext j tc
      have : i + (j + 1) = (i + 1) + j := by omega
      rw [this]
    simp only [harith]
    have hz : i + 0 = i := by omega
    rw [hz]
    rfl

/-! ### Claim C8 -/

def ctxNone : Ctx := { doneAt := fun _ => false, errMsg := "context canceled" }

/-- C8: the timed-out flag of a recorded outcome is set exactly when
the command run overran its per-command timeout context (parse failures
and ordinary command failures leave it unset); on a timeout the
executor's error text records the budget ("command timed out after
<budget>") and the coordinator's recorded error text is
"timeout after <budget>"; and such failures are non-fatal — a run whose
cancellation signal never fires returns no error and reports every test
case. -/
theorem timeoutFlag (E : Collab) (ctx : Ctx) (cfg : Config) (tc : TestCase)
    (tmpl version url : String) (timeout : Int)
    (arrive : Nat → List String → List String) :
    ((Execute E tmpl version url timeout).1.timedOut = true
      ↔ ∃ c cs, E.shellParse (finalCommand tmpl url) = .ok (c :: cs)
          ∧ (E.runCmd (c :: cs)
              (if timeout ≤ 0 then DefaultTimeout else timeout)).deadlineExceeded = true)
    ∧ ((Execute E tmpl version url timeout).1.timedOut = true →
        (Execute E tmpl version url timeout).1.error
            = "command timed out after "
              ++ E.showDur (if timeout ≤ 0 then DefaultTimeout else timeout)
          ∧ (Execute E tmpl version url timeout).2 = some "context deadline exceeded")
    ∧ ((taskRun E timeout cfg tc version).execInfo.timedOut
        = (Execute E ((List.lookup version tc.commands).getD "") version
            ((List.lookup version cfg.versions).getD "") timeout).1.timedOut)
    ∧ ((taskRun E timeout cfg tc version).execInfo.timedOut = true →
        (taskRun E timeout cfg tc version).execInfo.error
          = "timeout after " ++ E.showDur timeout)
    ∧ ((∀ j, ctx.doneAt j = false) →
        (RunWithContext E ctx cfg arrive).2 = none
        ∧ (RunWithContext E ctx cfg arrive).1.commandResults.length
            = (GetTestCases cfg).length) := by
  have hexec : ∀ (tm v u : String) (t : Int),
      ((Execute E tm v u t).1.timedOut = true
        ↔ ∃ c cs, E.shellParse (finalCommand tm u) = .ok (c :: cs)
            ∧ (E.runCmd (c :: cs)
                (if t ≤ 0 then DefaultTimeout else t)).deadlineExceeded = true)
      ∧ ((Execute E tm v u t).1.timedOut = true →
          (Execute E tm v u t).1.error
              = "command timed out after "
                ++ E.showDur (if t ≤ 0 then DefaultTimeout else t)
            ∧ (Execute E tm v u t).2 = some "context deadline exceeded") := by
    intro tm v u t
    cases hsp : E.shellParse (finalCommand tm u) with
    | error e =>
      have hto : (Execute E tm v u t).1.timedOut = false := by
        simp only [Execute, hsp]
      constructor
      · rw [hto]
        constructor
        · intro h; cases h
        · rintro ⟨c, cs, hok, _⟩
          exact absurd hok (by simp)
      · intro h
        rw [hto] at h
        cases h
    | ok args =>
      cases args with
      | nil =>
        have hto : (Execute E tm v u t).1.timedOut = false := by
          simp only [Execute, hsp]
        constructor
        · rw [hto]
          constructor
          · intro h; cases h
          · rintro ⟨c, cs, hok, _⟩
            simp at hok
        · intro h
          rw [hto] at h
          cases h
      | cons c0 cs0 =>
        cases hdl : (E.runCmd (c0 :: cs0)
            (if t ≤ 0 then DefaultTimeout else t)).deadlineExceeded with
        | true =>
          have hres : (Execute E tm v u t).1.timedOut = true
              ∧ (Execute E tm v u t).1.error
                  = "command timed out after "
                    ++ E.showDur (if t ≤ 0 then DefaultTimeout else t)
              ∧ (Execute E tm v u t).2 = some "context deadline exceeded" := by
            simp only [Execute, hsp]
            rw [if_pos hdl]
            exact ⟨rfl, rfl, rfl⟩
          constructor
          · exact iff_of_true hres.1 ⟨c0, cs0, rfl, hdl⟩
          · exact fun _ => ⟨hres.2.1, hres.2.2⟩
        | false =>
          have hto : (Execute E tm v u t).1.timedOut = false := by
            simp only [Execute, hsp]
            rw [if_neg (by rw [hdl]; simp)]
            cases (E.runCmd (c0 :: cs0) (if t ≤ 0 then DefaultTimeout else t)).runErr with
            | some e =>
              by_cases hst : goTrim (E.runCmd (c0 :: cs0)
                  (if t ≤ 0 then DefaultTimeout else t)).stderr ≠ "" <;> simp [hst]
            | none => rfl
          constructor
          · rw [hto]
            constructor
            · intro h; cases h
            · rintro ⟨c, cs, hok, hd2⟩
              injection hok with hok
              injection hok with h1 h2
              subst h1
              subst h2
              rw [hdl] at hd2
              cases hd2
          · intro h
            rw [hto] at h
            cases h
  refine ⟨(hexec tmpl version url timeout).1, (hexec tmpl version url timeout).2, ?_, ?_, ?_⟩
  · unfold taskRun
    cases he : (Execute E ((List.lookup version tc.commands).getD "") version
        ((List.lookup version cfg.versions).getD "") timeout).2 with
    | some e =>
      simp only [he]
    | none =>
      simp only [he]
      cases hs : E.save ((List.lookup version tc.commands).getD "") version
          (some (Execute E ((List.lookup version tc.commands).getD "") version
            ((List.lookup version cfg.versions).getD "") timeout).1.response) none with
      | error se => simp only [hs]
      | ok path => simp only [hs]
  · intro h
    unfold taskRun at h ⊢
    cases he : (Execute E ((List.lookup version tc.commands).getD "") version
        ((List.lookup version cfg.versions).getD "") timeout).2 with
    | some e =>
      simp only [he] at h ⊢
      rw [if_pos h]
    | none =>
      exfalso
      simp only [he] at h
      cases hs : E.save ((List.lookup version tc.commands).getD "") version
          (some (Execute E ((List.lookup version tc.commands).getD "") version
            ((List.lookup version cfg.versions).getD "") timeout).1.response) none with
      | error se =>
        rw [hs] at h
        simp only at h
        have h2 := ((hexec ((List.lookup version tc.commands).getD "") version
          ((List.lookup version cfg.versions).getD "") timeout).2 h).2
        rw [he] at h2
        cases h2
      | ok path =>
        rw [hs] at h
        simp only at h
        have h2 := ((hexec ((List.lookup version tc.commands).getD "") version
          ((List.lookup version cfg.versions).getD "") timeout).2 h).2
        rw [he] at h2
        cases h2
  · intro hnc
    unfold RunWithContext
    rw [runScenarios_all_clear E ctx cfg (sortedVersions cfg) (GetTimeout cfg) arrive hnc 0]
    constructor
    · rfl
    · simp

def timeoutCollab : Collab :=
  { mkCollab (fun _ => none) with
    runCmd := fun _ _ =>
      { stdout := "", stderr := "", runErr := none, deadlineExceeded := true } }

/-- C8 witness: a run whose command context reports a deadline overrun
yields a timed-out execution result whose error text records the
budget. -/
theorem timeoutFlagWitness :
    (Execute timeoutCollab "CMD" "v1" "u" 5).1.timedOut = true
    ∧ (Execute timeoutCollab "CMD" "v1" "u" 5).1.error
        = "command timed out after 5s" := by
  have h := timeoutFlag timeoutCollab ctxNone
    { versions := [("a", "u")], commands := ["CMD"], testCases := [],
      keysOnly := false, timeout := 5 }
    { name := "T", commands := [("a", "CMD")] } "CMD" "v1" "u" 5 (fun _ L => L)
  have hto : (Execute timeoutCollab "CMD" "v1" "u" 5).1.timedOut = true :=
    h.1.mpr ⟨"CMD", [], rfl, rfl⟩
  exact ⟨hto, ((h.2.1 hto).1).trans (by decide)⟩

/-! ### Claim C4 -/

theorem runScenarios_cancel (E : Collab) (ctx : Ctx) (cfg : Config)
    (versions : List String) (timeout : Int)
    (arrive : Nat → List String → List String) :
    ∀ (tcs : List TestCase) (i0 i : Nat), i < tcs.length →
      (∀ j, j < i → ctx.doneAt (i0 + j) = false) → ctx.doneAt (i0 + i) = true →
      runScenarios E ctx cfg versions timeout arrive i0 tcs
        = ((tcs.take i).mapIdx (fun j tc => scenarioAt E cfg versions timeout arrive (i0 + j) tc)
            ++ List.replicate (tcs.length - i) zeroCommandResult,
           ["operation cancelled: " ++ ctx.errMsg], some ctx.errMsg) := by
  intro tcs
  induction tcs with
  | nil =>
    intro i0 i hlt _ _
    cases hlt
  | cons tc rest ih =>
    intro i0 i hlt hbefore hat
    cases i with
    | zero =>
      have hd : ctx.doneAt i0 = true := by
        have := hat
        rw [show i0 + 0 = i0 from by omega] at this
        exact this
      rw [runScenarios, if_pos hd]
      have hmap : (tc :: rest).map (fun _ => zeroCommandResult)
          = List.replicate ((tc :: rest).length - 0) zeroCommandResult := by
        rw [List.map_const']
        rfl
      rw [hmap]
      rfl
    | succ k =>
      have hd : ctx.doneAt i0 = false := by
        have := hbefore 0 (by omega)
        rw [show i0 + 0 = i0 from by omega] at this
        exact this
      rw [runScenarios, if_neg (by rw [hd]; simp)]
      have hrest := ih (i0 + 1) k (by simpa using hlt)
        (fun j hj => by
          have := hbefore (j + 1) (by omega)
          rw [show i0 + (j + 1) = (i0 + 1) + j from by omega] at this
          exact this)
        (by
          have := hat
          rw [show i0 + (k + 1) = (i0 + 1) + k from by omega] at this
          exact this)
      rw [hrest]
      rw [List.take_succ_cons, List.mapIdx_cons]
      have harith : (fun j tc => scenarioAt E cfg versions timeout arrive (i0 + (j + 1)) tc)
          = (fun j tc => scenarioAt E cfg versions timeout arrive ((i0 + 1) + j) tc) := by
        funext j tc
        have : i0 + (j + 1) = (i0 + 1) + j := by omega
        rw [this]
      simp only [harith]
      have hz : i0 + 0 = i0 := by omega
      rw [hz]
      have hlen : (tc :: rest).length - (k + 1) = rest.length - k := by
        simp
      rw [hlen]
      rfl

/-- C4 (amended): if the cancellation signal first fires at the check
before scenario index `i`, the run stops there and returns a non-nil
cancellation error and the cancellation message in the error list;
the report's scenario list keeps its preallocated full length — the
entries for the scenarios already completed (indices below `i`) are
their computed reports, while every remaining slot holds the
zero-valued `CommandResult` placeholder (Go preallocates
`make([]CommandResult, len(testCases))`), rather than the report
containing only the completed scenarios. -/
theorem cancellationAmended (E : Collab) (ctx : Ctx) (cfg : Config)
    (arrive : Nat → List String → List String) (i : Nat)
    (hlt : i < (GetTestCases cfg).length)
    (hbefore : ∀ j, j < i → ctx.doneAt j = false)
    (hat : ctx.doneAt i = true) :
    (RunWithContext E ctx cfg arrive).2 = some ctx.errMsg
    ∧ (RunWithContext E ctx cfg arrive).1.errors
        = ["operation cancelled: " ++ ctx.errMsg]
    ∧ (RunWithContext E ctx cfg arrive).1.commandResults
        = ((GetTestCases cfg).take i).mapIdx
            (fun j tc => scenarioAt E cfg (sortedVersions cfg) (GetTimeout cfg) arrive j tc)
          ++ List.replicate ((GetTestCases cfg).length - i) zeroCommandResult := by
  have h := runScenarios_cancel E ctx cfg (sortedVersions cfg) (GetTimeout cfg) arrive
    (GetTestCases cfg) 0 i hlt
    (fun j hj => by
      have := hbefore j hj
      rw [show (0 : Nat) + j = j from by omega]
      exact this)
    (by rw [show (0 : Nat) + i = i from by omega]; exact hat)
  have harith : (fun j tc => scenarioAt E cfg (sortedVersions cfg) (GetTimeout cfg) arrive (0 + j) tc)
      = (fun j tc => scenarioAt E cfg (sortedVersions cfg) (GetTimeout cfg) arrive j tc) := by
    funext j tc
    rw [show (0 : Nat) + j = j from by omega]
  unfold RunWithContext
  rw [h, harith]
  exact ⟨rfl, rfl, rfl⟩

def ctxAll : Ctx := { doneAt := fun _ => true, errMsg := "context canceled" }

def cfgC4 : Config :=
  { versions := [("a", "u")], commands := ["C1", "C2"], testCases := [],
    keysOnly := false, timeout := 5 }

/-- C4 counterexample: with the signal already triggered before
scenario 0, no scenario has completed, yet the returned report's
scenario list still has two (zero-valued) entries — it does not contain
"only the previously completed scenarios" (which would be none). -/
theorem cancellationCounterexample :
    (RunWithContext fixtureCollab ctxAll cfgC4 (fun _ L => L)).1.commandResults
        = [zeroCommandResult, zeroCommandResult]
    ∧ (RunWithContext fixtureCollab ctxAll cfgC4 (fun _ L => L)).1.commandResults.length = 2
    ∧ (RunWithContext fixtureCollab ctxAll cfgC4 (fun _ L => L)).2
        = some "context canceled" :=
  ⟨by decide, by decide, by decide⟩

def ctxAt1 : Ctx := { doneAt := fun j => decide (1 ≤ j), errMsg := "context canceled" }

/-- C4 witness: cancellation firing before scenario index 1 of a
two-scenario run yields the cancellation error, the cancellation
message, and a report with scenario 0's computed entry followed by one
zero placeholder. -/
theorem cancellationWitness :
    (RunWithContext fixtureCollab ctxAt1 cfgC4 (fun _ L => L)).2 = some "context canceled"
    ∧ (RunWithContext fixtureCollab ctxAt1 cfgC4 (fun _ L => L)).1.errors
        = ["operation cancelled: context canceled"] := by
  have h := cancellationAmended fixtureCollab ctxAt1 cfgC4 (fun _ L => L) 1
    (by decide)
    (fun j hj => by
      have hz : j = 0 := by omega
      rw [hz]
      rfl)
    (by rfl)
  exact ⟨h.1, h.2.1⟩

/-! ### Claim C3 -/

theorem string_length_zero {s : String} (h : s.length = 0) : s = "" :=
  string_data_eq_imp (List.length_eq_zero.mp h)

theorem mkVersionDiff_isSome (E : Collab) (keysOnly : Bool)
    (results : List (String × String)) (x y : String)
    (hread : ∀ v p, (v, p) ∈ results → ∃ s, E.readFile p = .ok s ∧ s ≠ "") :
    (mkVersionDiff E keysOnly results x y).diffResult.isSome
      = ((List.lookup x results).isSome && (List.lookup y results).isSome) := by
  cases h1 : List.lookup x results with
  | none => simp [mkVersionDiff, h1]
  | some f1 =>
    cases h2 : List.lookup y results with
    | none => simp [mkVersionDiff, h1, h2]
    | some f2 =>
      obtain ⟨s1, hr1, hs1⟩ := hread x f1 (mem_of_lookup_eq_some h1)
      obtain ⟨s2, hr2, hs2⟩ := hread y f2 (mem_of_lookup_eq_some h2)
      have hl1 : ¬ (s1.length = 0) := fun hh => hs1 (string_length_zero hh)
      have hl2 : ¬ (s2.length = 0) := fun hh => hs2 (string_length_zero hh)
      simp [mkVersionDiff, h1, h2, compareFiles, hr1, hr2, hl1, hl2]

theorem adjPairs_nil_of_short {α : Type} (l : List α) (h : ¬ l.length > 1) :
    adjPairs l = [] := by
  match l with
  | [] => rfl
  | [a] => rfl
  | a :: b :: rest =>
    exfalso
    simp only [List.length_cons, gt_iff_lt, not_lt] at h
    omega

/-- C3 (amended): the number of computed pairwise DiffResults in a
scenario report equals the number of adjacent pairs in the run-wide
sorted label list whose both labels produced a content locator
(provided the stored content of every locator reads back non-empty) —
not (labels with content − 1) in general; the two agree exactly when
the content-producing labels are contiguous in sorted order, e.g. when
every label produced content. -/
theorem pairwiseDiffCountAmended (E : Collab) (cfg : Config) (tc : TestCase)
    (order : List String) (timeout : Int)
    (hread : ∀ v p, (v, p) ∈ scenarioResults (scenarioOuts E timeout cfg tc order) →
        ∃ s, E.readFile p = .ok s ∧ s ≠ "") :
    numDiffResults (runScenario E cfg (sortedVersions cfg) timeout tc order)
      = ((adjPairs (sortedVersions cfg)).filter fun pr =>
          (List.lookup pr.1 (scenarioResults (scenarioOuts E timeout cfg tc order))).isSome
            && (List.lookup pr.2
                (scenarioResults (scenarioOuts E timeout cfg tc order))).isSome).length := by
  unfold numDiffResults runScenario
  by_cases hv : (sortedVersions cfg).length > 1
  · rw [if_pos hv]
    rw [← List.countP_eq_length_filter, ← List.countP_eq_length_filter, List.countP_map]
    apply List.countP_congr
    intro pr _
    have := mkVersionDiff_isSome E cfg.keysOnly
      (scenarioResults (scenarioOuts E timeout cfg tc order)) pr.1 pr.2 hread
    constructor
    · intro h
      rw [← this]
      exact h
    · intro h
      show (mkVersionDiff E cfg.keysOnly _ pr.1 pr.2).diffResult.isSome = true
      rw [this]
      exact h
  · rw [if_neg hv, adjPairs_nil_of_short _ hv]
    rfl

def c3Collab : Collab :=
  { mkCollab (fun _ => some (.num 1)) with
    runCmd := fun args _ =>
      if args = ["CB"] then
        { stdout := "", stderr := "", runErr := some "boom", deadlineExceeded := false }
      else { stdout := "OK", stderr := "", runErr := none, deadlineExceeded := false } }

def tcC3 : TestCase := { name := "T1", commands := [("a", "CA"), ("b", "CB"), ("c", "CC")] }

def cfgC3 : Config :=
  { versions := [("a", "ua"), ("b", "ub"), ("c", "uc")], commands := [],
    testCases := [tcC3], keysOnly := false, timeout := 5 }

/-- C3 counterexample: versions a, b, c where b's command fails: two
labels produced content (a and c), so the claim requires 2 − 1 = 1
pairwise DiffResult, but both adjacent pairs (a,b) and (b,c) involve
the failed b, so the scenario report carries 0 DiffResults. -/
theorem pairwiseDiffCountCounterexample :
    ((sortedVersions cfgC3).filter fun v =>
        (List.lookup v (scenarioResults (scenarioOuts c3Collab (GetTimeout cfgC3) cfgC3 tcC3
          (launchedVersions (sortedVersions cfgC3) tcC3)))).isSome).length = 2
    ∧ (RunWithContext c3Collab ctxNone cfgC3 (fun _ L => L)).1.commandResults.map
        numDiffResults = [0] :=
  ⟨by decide, by decide⟩

def tcC3b : TestCase := { name := "T2", commands := [("a", "CA"), ("b", "CX"), ("c", "CC")] }

/-- C3 witness: when every label produces readable content the count
equals the number of adjacent pairs, here 2 (= labels with content − 1,
the contiguous case). -/
theorem pairwiseDiffCountWitness :
    numDiffResults (runScenario c3Collab cfgC3 (sortedVersions cfgC3) (GetTimeout cfgC3)
      tcC3b (launchedVersions (sortedVersions cfgC3) tcC3b)) = 2 := by
  have h := pairwiseDiffCountAmended c3Collab cfgC3 tcC3b
    (launchedVersions (sortedVersions cfgC3) tcC3b) (GetTimeout cfgC3)
    (fun v p _ => ⟨"OK", rfl, by decide⟩)
  exact h.trans (by decide)

/-! ### Claim C9 -/

/-- C9 (amended): a pairwise DiffResult is present **only if** both
adjacent labels have a content locator; when both are present and the
stored contents read back non-empty the entry carries the comparator's
result and no error; when one or both locators are missing the entry
instead carries an error naming exactly the missing label(s).  (The
claim's "if and only if" fails: with both locators present the pair can
still carry an error instead of a DiffResult when a stored file reads
back empty or unreadable.)  The last conjunct ties `mkVersionDiff` to
the scenario report: its diff list is exactly one entry per adjacent
pair of the sorted label list. -/
theorem adjacentPairDiffAmended (E : Collab) (keysOnly : Bool)
    (results : List (String × String)) (x y : String) :
    ((mkVersionDiff E keysOnly results x y).diffResult.isSome = true →
        (List.lookup x results).isSome = true ∧ (List.lookup y results).isSome = true)
    ∧ (∀ f1 f2 s1 s2, List.lookup x results = some f1 → List.lookup y results = some f2 →
        E.readFile f1 = .ok s1 → s1 ≠ "" → E.readFile f2 = .ok s2 → s2 ≠ "" →
        (mkVersionDiff E keysOnly results x y).diffResult
            = some (CompareWithOptions E s1 s2 f1 f2 { keysOnly := keysOnly })
          ∧ (mkVersionDiff E keysOnly results x y).error = "")
    ∧ (List.lookup x results = none ∨ List.lookup y results = none →
        (mkVersionDiff E keysOnly results x y).diffResult = none
        ∧ (mkVersionDiff E keysOnly results x y).error
            = "failed to get responses for version(s): "
              ++ joinStrings ((if (List.lookup x results).isNone then [x] else [])
                  ++ (if (List.lookup y results).isNone then [y] else [])) ", ")
    ∧ (∀ (cfg : Config) (versions : List String) (timeout : Int) (tc : TestCase)
          (order : List String), versions.length > 1 →
        (runScenario E cfg versions timeout tc order).diffs
          = (adjPairs versions).map fun pr =>
              mkVersionDiff E cfg.keysOnly
                (scenarioResults (scenarioOuts E timeout cfg tc order)) pr.1 pr.2) := by
  refine ⟨?_, ?_, ?_, ?_⟩
  · intro h
    cases h1 : List.lookup x results with
    | none => exact absurd h (by simp [mkVersionDiff, h1])
    | some f1 =>
      cases h2 : List.lookup y results with
      | none => exact absurd h (by simp [mkVersionDiff, h1, h2])
      | some f2 => exact ⟨rfl, rfl⟩
  · intro f1 f2 s1 s2 h1 h2 hr1 hs1 hr2 hs2
    have hl1 : ¬ (s1.length = 0) := fun hh => hs1 (string_length_zero hh)
    have hl2 : ¬ (s2.length = 0) := fun hh => hs2 (string_length_zero hh)
    constructor
    · simp [mkVersionDiff, h1, h2, compareFiles, hr1, hr2, hl1, hl2]
    · simp [mkVersionDiff, h1, h2, compareFiles, hr1, hr2, hl1, hl2]
  · intro h
    rcases h with h | h
    · cases h2 : List.lookup y results with
      | none => simp [mkVersionDiff, h, h2]
      | some f2 => simp [mkVersionDiff, h, h2]
    · cases h1 : List.lookup x results with
      | none => simp [mkVersionDiff, h, h1]
      | some f1 => simp [mkVersionDiff, h, h1]
  · intro cfg versions timeout tc order hv
    unfold runScenario
    rw [if_pos hv]

def c9Collab : Collab :=
  { mkCollab (fun _ => some (.num 1)) with readFile := fun _ => .ok "" }

def cfgC9 : Config :=
  { versions := [("a", "ua"), ("b", "ub")], commands := ["CMD"], testCases := [],
    keysOnly := false, timeout := 5 }

def tcC9 : TestCase :=
  { name := "Command 1", commands := [("a", "CMD"), ("b", "CMD")] }

/-- C9 counterexample: both labels a and b have content locators, yet
the pair's entry carries the "empty response content" error and no
DiffResult, refuting the claim's "if and only if". -/
theorem adjacentPairDiffCounterexample :
    (List.lookup "a" (scenarioResults (scenarioOuts c9Collab (GetTimeout cfgC9) cfgC9 tcC9
        (launchedVersions (sortedVersions cfgC9) tcC9)))).isSome = true
    ∧ (List.lookup "b" (scenarioResults (scenarioOuts c9Collab (GetTimeout cfgC9) cfgC9 tcC9
        (launchedVersions (sortedVersions cfgC9) tcC9)))).isSome = true
    ∧ ((RunWithContext c9Collab ctxNone cfgC9 (fun _ L => L)).1.commandResults.map
        fun cr => cr.diffs.map fun d => (d.diffResult.isSome, d.error))
      = [[(false, "empty response content for a")]] :=
  ⟨by decide, by decide, by decide⟩

/-- C9 witness: with both locators present and readable non-empty
content, the pair's entry carries the comparator's DiffResult. -/
theorem adjacentPairDiffWitness :
    (mkVersionDiff fixtureCollab false [("a", "Fa"), ("b", "Fb")] "a" "b").diffResult
      = some (CompareWithOptions fixtureCollab "OK" "OK" "Fa" "Fb" { keysOnly := false }) := by
  have h := adjacentPairDiffAmended fixtureCollab false [("a", "Fa"), ("b", "Fb")] "a" "b"
  exact (h.2.1 "Fa" "Fb" "OK" "OK" rfl rfl rfl (by decide) rfl (by decide)).1

/-! ### Claim C2: helper lemmas -/

/-- The projection of a scenario report the determinism claim speaks
about: scenario name, diff list (pairing and contents) and ordered
outcome list.  The `commands` field is the raw Go map, whose
association-list representation is a modelling artifact with no
canonical order, so it is not part of the view. -/
def reportView (cr : CommandResult) : String × List VersionDiff × List ExecInfo :=
  (cr.testCaseName, cr.diffs, cr.execInfo)

theorem taskRun_version (E : Collab) (timeout : Int) (cfg : Config) (tc : TestCase)
    (v : String) :
    (taskRun E timeout cfg tc v).version = v
    ∧ (taskRun E timeout cfg tc v).execInfo.version = v := by
  constructor
  · unfold taskRun
    dsimp only
    split
    · rfl
    · split <;> rfl
  · unfold taskRun
    dsimp only
    split
    · rfl
    · split <;> rfl

theorem mkVersionDiff_endpoints (E : Collab) (keysOnly : Bool)
    (results : List (String × String)) (x y : String) :
    (mkVersionDiff E keysOnly results x y).versionA = x
    ∧ (mkVersionDiff E keysOnly results x y).versionB = y := by
  constructor
  · unfold mkVersionDiff
    split
    · split <;> rfl
    · rfl
  · unfold mkVersionDiff
    split
    · split <;> rfl
    · rfl

theorem mkVersionDiff_lookup_congr (E : Collab) (keysOnly : Bool)
    {r1 r2 : List (String × String)}
    (h : ∀ v, List.lookup v r1 = List.lookup v r2) (x y : String) :
    mkVersionDiff E keysOnly r1 x y = mkVersionDiff E keysOnly r2 x y := by
  unfold mkVersionDiff
  rw [h x, h y]

theorem contains_perm_congr {l1 l2 : List String} (hp : l1.Perm l2) (v : String) :
    l1.contains v = l2.contains v := by
  cases hv1 : l1.contains v with
  | true =>
    have hm := hp.mem_iff.mp (List.elem_iff.mp hv1)
    have h2 : l2.contains v = true := List.elem_iff.mpr hm
    exact h2.symm
  | false =>
    cases hv2 : l2.contains v with
    | false => rfl
    | true =>
      have hm := hp.mem_iff.mpr (List.elem_iff.mp hv2)
      have h1 : l1.contains v = true := List.elem_iff.mpr hm
      rw [h1] at hv1
      cases hv1

/-- Pointwise equivalence of test cases: same display name and the same
command map (as a lookup function).  Two representations of the same Go
map are equivalent. -/
def tcEquiv (tc1 tc2 : TestCase) : Prop :=
  tc1.name = tc2.name ∧ ∀ v, List.lookup v tc1.commands = List.lookup v tc2.commands

theorem launched_congr (versions : List String) {tc1 tc2 : TestCase}
    (hcmd : ∀ v, List.lookup v tc1.commands = List.lookup v tc2.commands) :
    launchedVersions versions tc1 = launchedVersions versions tc2 := by
  unfold launchedVersions
  apply List.filter_congr
  intro v _
  rw [hcmd v]

theorem forall₂_mapIdx {α β γ : Type} (r : β → γ → Prop) :
    ∀ (l : List α) (f : Nat → α → β) (g : Nat → α → γ),
      (∀ i x, r (f i x) (g i x)) → List.Forall₂ r (l.mapIdx f) (l.mapIdx g) := by
  intro l
  induction l with
  | nil => intro f g _; simp
  | cons a as ih =>
    intro f g h
    rw [List.mapIdx_cons, List.mapIdx_cons]
    exact List.Forall₂.cons (h 0 a) (ih _ _ (fun i x => h (i + 1) x))

theorem GetTestCases_equiv {cfg cfg' : Config}
    (hperm : cfg'.versions.Perm cfg.versions)
    (hc : cfg'.commands = cfg.commands) (ht : cfg'.testCases = cfg.testCases) :
    List.Forall₂ tcEquiv (GetTestCases cfg) (GetTestCases cfg') := by
  unfold GetTestCases
  rw [hc, ht]
  by_cases h : cfg.testCases.length > 0
  · rw [if_pos h, if_pos h]
    exact List.forall₂_same.mpr (fun tc _ => ⟨rfl, fun _ => rfl⟩)
  · rw [if_neg h, if_neg h]
    apply forall₂_mapIdx
    intro i cmd
    refine ⟨rfl, fun v => ?_⟩
    rw [lookup_const_map, lookup_const_map,
      contains_perm_congr ((hperm.map Prod.fst).symm) v]

theorem scenarioResults_keys_sublist (E : Collab) (timeout : Int) (cfg : Config)
    (tc : TestCase) :
    ∀ order : List String,
      ((scenarioResults (scenarioOuts E timeout cfg tc order)).map Prod.fst).Sublist order := by
  intro order
  induction order with
  | nil => simp [scenarioOuts, scenarioResults]
  | cons v rest ih =>
    unfold scenarioOuts scenarioResults
    rw [List.map_cons, List.filterMap_cons]
    by_cases hf : (taskRun E timeout cfg tc v).filePath = ""
    · rw [if_pos hf]
      exact List.Sublist.cons v ih
    · rw [if_neg hf]
      rw [List.map_cons, (taskRun_version E timeout cfg tc v).1]
      exact List.Sublist.cons₂ v ih

theorem sortedStrings_unique {l₁ l₂ : List String} (hp : l₁.Perm l₂)
    (hs₁ : l₁.Pairwise (fun a b => strLe a b = true))
    (hs₂ : l₂.Pairwise (fun a b => strLe a b = true)) : l₁ = l₂ := by
  haveI : IsAntisymm String (fun a b => strLe a b = true) :=
    ⟨fun _ _ h1 h2 => strLe_antisymm h1 h2⟩
  exact List.eq_of_perm_of_sorted hp hs₁ hs₂

theorem taskRun_cross (E : Collab) (timeout : Int) {cfg cfg' : Config}
    (hperm : cfg'.versions.Perm cfg.versions)
    (hnd : (cfg.versions.map Prod.fst).Nodup)
    {tc1 tc2 : TestCase}
    (hcmd : ∀ v, List.lookup v tc1.commands = List.lookup v tc2.commands)
    (v : String) :
    taskRun E timeout cfg' tc2 v = taskRun E timeout cfg tc1 v := by
  have hnd' : (cfg'.versions.map Prod.fst).Nodup :=
    ((hperm.map Prod.fst).nodup_iff).mpr hnd
  unfold taskRun
  rw [lookup_eq_of_perm hperm hnd' v, ← hcmd v]

theorem scenarioOuts_cross (E : Collab) (timeout : Int) {cfg cfg' : Config}
    (hperm : cfg'.versions.Perm cfg.versions)
    (hnd : (cfg.versions.map Prod.fst).Nodup)
    {tc1 tc2 : TestCase}
    (hcmd : ∀ v, List.lookup v tc1.commands = List.lookup v tc2.commands)
    (order : List String) :
    scenarioOuts E timeout cfg' tc2 order = scenarioOuts E timeout cfg tc1 order := by
  unfold scenarioOuts
  exact List.map_congr_left (fun v _ => taskRun_cross E timeout hperm hnd hcmd v)

theorem scenarioOuts_versions (E : Collab) (timeout : Int) (cfg : Config)
    (tc : TestCase) (order : List String) :
    ((scenarioOuts E timeout cfg tc order).map (fun r => r.execInfo)).map
        (fun i => i.version) = order := by
  unfold scenarioOuts
  rw [List.map_map, List.map_map]
  have h : ∀ v ∈ order,
      (((fun i => i.version) ∘ fun r => r.execInfo) ∘ taskRun E timeout cfg tc) v
        = id v := fun v _ => (taskRun_version E timeout cfg tc v).2
  rw [List.map_congr_left h, List.map_id]

theorem runScenario_order_invariant (E : Collab) (cfg : Config)
    (versions : List String) (timeout : Int) (tc : TestCase)
    {order1 order2 : List String}
    (hp : order1.Perm order2) (hnd : order2.Nodup) :
    runScenario E cfg versions timeout tc order1
      = runScenario E cfg versions timeout tc order2 := by
  have hnd1 : order1.Nodup := hp.nodup_iff.mpr hnd
  have hres : ∀ v,
      List.lookup v (scenarioResults (scenarioOuts E timeout cfg tc order1))
        = List.lookup v (scenarioResults (scenarioOuts E timeout cfg tc order2)) := by
    apply lookup_eq_of_perm
    · exact (hp.map (taskRun E timeout cfg tc)).filterMap _
    · exact (scenarioResults_keys_sublist E timeout cfg tc order1).nodup hnd1
  simp only [runScenario, CommandResult.mk.injEq, true_and]
  constructor
  · by_cases hl : versions.length > 1
    · rw [if_pos hl, if_pos hl]
      exact List.map_congr_left
        (fun p _ => mkVersionDiff_lookup_congr E cfg.keysOnly hres p.1 p.2)
    · rw [if_neg hl, if_neg hl]
  · apply sortOn_eq_of_perm
    · exact (hp.map (taskRun E timeout cfg tc)).map (fun r => r.execInfo)
    · rw [scenarioOuts_versions]
      exact hnd1

theorem runScenario_cross (E : Collab) {cfg cfg' : Config}
    (hperm : cfg'.versions.Perm cfg.versions)
    (hnd : (cfg.versions.map Prod.fst).Nodup)
    (hk : cfg'.keysOnly = cfg.keysOnly)
    (versions : List String) (timeout : Int)
    {tc1 tc2 : TestCase} (hname : tc1.name = tc2.name)
    (hcmd : ∀ v, List.lookup v tc1.commands = List.lookup v tc2.commands)
    (order : List String) :
    reportView (runScenario E cfg' versions timeout tc2 order)
      = reportView (runScenario E cfg versions timeout tc1 order) := by
  unfold reportView runScenario
  dsimp only
  rw [scenarioOuts_cross E timeout hperm hnd hcmd order, hk, ← hname]

theorem runScenarios_cross (E : Collab) (ctx : Ctx) {cfg cfg' : Config}
    (hperm : cfg'.versions.Perm cfg.versions)
    (hnd : (cfg.versions.map Prod.fst).Nodup)
    (hk : cfg'.keysOnly = cfg.keysOnly)
    (versions : List String) (hvnd : versions.Nodup) (timeout : Int)
    (arr1 arr2 : Nat → List String → List String)
    (ha1 : ∀ i L, (arr1 i L).Perm L) (ha2 : ∀ i L, (arr2 i L).Perm L)
    {tcs1 tcs2 : List TestCase} (hf : List.Forall₂ tcEquiv tcs1 tcs2) :
    ∀ i : Nat,
      (runScenarios E ctx cfg' versions timeout arr2 i tcs2).1.map reportView
        = (runScenarios E ctx cfg versions timeout arr1 i tcs1).1.map reportView
      ∧ (runScenarios E ctx cfg' versions timeout arr2 i tcs2).2
        = (runScenarios E ctx cfg versions timeout arr1 i tcs1).2 := by
  induction hf with
  | nil => intro i; exact ⟨rfl, rfl⟩
  | cons htc hrest ih =>
    intro i
    rename_i tc1 tc2 rest1 rest2
    simp only [runScenarios]
    by_cases hd : ctx.doneAt i = true
    · rw [if_pos hd, if_pos hd]
      have hlen : rest2.length = rest1.length := hrest.length_eq.symm
      constructor
      · simp only [List.map_map, Function.comp_def, List.map_const', List.length_cons,
          hlen]
      · rfl
    · rw [if_neg hd, if_neg hd]
      have hLnd : (launchedVersions versions tc1).Nodup :=
        (List.filter_sublist versions).nodup hvnd
      have hL : launchedVersions versions tc2 = launchedVersions versions tc1 :=
        (launched_congr versions htc.2).symm
      constructor
      · simp only [List.map_cons]
        have hhead :
            reportView (runScenario E cfg' versions timeout tc2
                (arr2 i (launchedVersions versions tc2)))
              = reportView (runScenario E cfg versions timeout tc1
                (arr1 i (launchedVersions versions tc1))) := by
          rw [hL,
            runScenario_cross E hperm hnd hk versions timeout htc.1 htc.2 _,
            runScenario_order_invariant E cfg versions timeout tc1
              ((ha2 i (launchedVersions versions tc1)).trans
                (ha1 i (launchedVersions versions tc1)).symm)
              (((ha1 i (launchedVersions versions tc1)).nodup_iff).mpr hLnd)]
        rw [hhead, (ih (i + 1)).1]
      · exact (ih (i + 1)).2

theorem launched_sorted (cfg : Config) (tc : TestCase) :
    (launchedVersions (sortedVersions cfg) tc).Pairwise
      (fun a b => strLe a b = true) := by
  unfold launchedVersions
  apply List.Pairwise.filter
  have h := sortOn_sorted id (cfg.versions.map Prod.fst)
  simpa [sortedVersions, sortStrings] using h

theorem runScenario_pairing (E : Collab) (cfg : Config) (versions : List String)
    (timeout : Int) (tc : TestCase) (order : List String) :
    ((runScenario E cfg versions timeout tc order).diffs.map
        (fun d => (d.versionA, d.versionB)))
      = if versions.length > 1 then adjPairs versions else [] := by
  dsimp only [runScenario]
  by_cases hl : versions.length > 1
  · rw [if_pos hl, if_pos hl, List.map_map]
    have h : ∀ p ∈ adjPairs versions,
        ((fun d => (d.versionA, d.versionB)) ∘ fun p =>
          mkVersionDiff E cfg.keysOnly
            (scenarioResults (scenarioOuts E timeout cfg tc order)) p.1 p.2) p
          = id p := by
      intro p _
      have h1 := mkVersionDiff_endpoints E cfg.keysOnly
        (scenarioResults (scenarioOuts E timeout cfg tc order)) p.1 p.2
      simp only [Function.comp_apply]
      rw [h1.1, h1.2]
      rfl
    rw [List.map_congr_left h, List.map_id]
  · rw [if_neg hl, if_neg hl]
    rfl

theorem runScenario_outcome_order (E : Collab) (cfg : Config) (timeout : Int)
    (tc : TestCase) (order : List String)
    (hp : order.Perm (launchedVersions (sortedVersions cfg) tc)) :
    ((runScenario E cfg (sortedVersions cfg) timeout tc order).execInfo.map
        (fun i => i.version))
      = launchedVersions (sortedVersions cfg) tc := by
  dsimp only [runScenario]
  apply sortedStrings_unique
  · have h1 := (sortOn_perm (fun i : ExecInfo => i.version)
      ((scenarioOuts E timeout cfg tc order).map (fun r => r.execInfo))).map
        (fun i : ExecInfo => i.version)
    rw [scenarioOuts_versions] at h1
    exact h1.trans hp
  · exact List.pairwise_map.mpr (sortOn_sorted (fun i : ExecInfo => i.version)
      ((scenarioOuts E timeout cfg tc order).map (fun r => r.execInfo)))
  · exact launched_sorted cfg tc

/-- C2: the version-label ordering of a run is the ascending
lexicographic sort of the configured labels, computed once per run and
reused by every scenario: (a) it is invariant under permuting the
configured version map; (b) every scenario's diff list pairs exactly
the adjacent sorted labels, in that order, irrespective of task
completion order; (c) every scenario's outcome list is sorted
ascending by label, irrespective of task completion order; and
(d)–(f) a whole run over a permuted version map and different task
completion orders produces the same report (scenario names, diffs,
outcome lists), the same error list and the same returned error. -/
theorem versionOrderDeterminism (E : Collab) (ctx : Ctx) (cfg cfg' : Config)
    (hperm : cfg'.versions.Perm cfg.versions)
    (hnd : (cfg.versions.map Prod.fst).Nodup)
    (hc : cfg'.commands = cfg.commands) (ht : cfg'.testCases = cfg.testCases)
    (hk : cfg'.keysOnly = cfg.keysOnly) (hto : cfg'.timeout = cfg.timeout)
    (arr1 arr2 : Nat → List String → List String)
    (ha1 : ∀ i L, (arr1 i L).Perm L) (ha2 : ∀ i L, (arr2 i L).Perm L) :
    sortedVersions cfg' = sortedVersions cfg
    ∧ (∀ tc order,
        ((runScenario E cfg (sortedVersions cfg) (GetTimeout cfg) tc order).diffs.map
            (fun d => (d.versionA, d.versionB)))
          = if (sortedVersions cfg).length > 1 then adjPairs (sortedVersions cfg)
            else [])
    ∧ (∀ tc order, order.Perm (launchedVersions (sortedVersions cfg) tc) →
        ((runScenario E cfg (sortedVersions cfg) (GetTimeout cfg) tc order).execInfo.map
            (fun i => i.version))
          = launchedVersions (sortedVersions cfg) tc)
    ∧ (RunWithContext E ctx cfg' arr2).1.commandResults.map reportView
        = (RunWithContext E ctx cfg arr1).1.commandResults.map reportView
    ∧ (RunWithContext E ctx cfg' arr2).1.errors = (RunWithContext E ctx cfg arr1).1.errors
    ∧ (RunWithContext E ctx cfg' arr2).2 = (RunWithContext E ctx cfg arr1).2 := by
  have hsv : sortedVersions cfg' = sortedVersions cfg :=
    sortStrings_eq_of_perm (hperm.map Prod.fst)
  have hvnd : (sortedVersions cfg).Nodup := by
    have h := ((sortOn_perm id (cfg.versions.map Prod.fst)).nodup_iff).mpr hnd
    simpa [sortedVersions, sortStrings] using h
  have hT : GetTimeout cfg' = GetTimeout cfg := by
    unfold GetTimeout
    rw [hto]
  have hrun := runScenarios_cross E ctx hperm hnd hk (sortedVersions cfg) hvnd
    (GetTimeout cfg) arr1 arr2 ha1 ha2 (GetTestCases_equiv hperm hc ht) 0
  refine ⟨hsv, ?_, ?_, ?_, ?_, ?_⟩
  · intro tc order
    exact runScenario_pairing E cfg (sortedVersions cfg) (GetTimeout cfg) tc order
  · intro tc order hp
    exact runScenario_outcome_order E cfg (GetTimeout cfg) tc order hp
  · dsimp only [RunWithContext]
    rw [hsv, hT]
    exact hrun.1
  · dsimp only [RunWithContext]
    rw [hsv, hT]
    exact congrArg Prod.fst hrun.2
  · dsimp only [RunWithContext]
    rw [hsv, hT]
    exact congrArg Prod.snd hrun.2

def cfgC2a : Config :=
  { versions := [("b", "U1"), ("a", "U2")], commands := ["X"], testCases := [],
    keysOnly := false, timeout := 0 }

def cfgC2b : Config :=
  { versions := [("a", "U2"), ("b", "U1")], commands := ["X"], testCases := [],
    keysOnly := false, timeout := 0 }

def arrId : Nat → List String → List String := fun _ L => L

def arrRev : Nat → List String → List String := fun _ L => L.reverse

theorem versionOrderDeterminismWitness :
    cfgC2b.versions.Perm cfgC2a.versions
    ∧ (cfgC2a.versions.map Prod.fst).Nodup
    ∧ sortedVersions cfgC2b = sortedVersions cfgC2a
    ∧ (RunWithContext fixtureCollab ctxNone cfgC2b arrRev).1.commandResults.map reportView
        = (RunWithContext fixtureCollab ctxNone cfgC2a arrId).1.commandResults.map
            reportView :=
  ⟨by decide, by decide,
    (versionOrderDeterminism fixtureCollab ctxNone cfgC2a cfgC2b (by decide) (by decide)
      rfl rfl rfl rfl arrId arrRev (fun _ L => List.Perm.refl L)
      (fun _ L => L.reverse_perm)).1,
    (versionOrderDeterminism fixtureCollab ctxNone cfgC2a cfgC2b (by decide) (by decide)
      rfl rfl rfl rfl arrId arrRev (fun _ L => List.Perm.refl L)
      (fun _ L => L.reverse_perm)).2.2.2.1⟩
